import Mathlib

/-!
Verification development for the ClipNote vehicle-listing scraper.

The TypeScript sources are shallowly embedded as executable Lean definitions:

* `core/normalize.ts` — `normalizeVehicleData` and its helpers (title-casing,
  keyword tables for transmission / drivetrain / fuel type / body style,
  numeric parsing, VIN cleanup, description cleanup).
* `core/photos.ts` — `extractPhotos` and its helpers (`parseSrcset`,
  `makeAbsoluteUrl`, `cleanImageUrl`, `isValidImageUrl`, `isMainImage`)
  together with the photo ordering comparator, plus the scraping engine's
  `validateScrapeResult`.
* `adapters/generic.ts` — the structured-data extraction passes
  (`extractFromMicrodata`, `extractFromOpenGraph`, `extractFromStructuredData`,
  `parseVehicleName`).
* `adapters/cargurus.ts` — the CarGurus `scrape()` pipeline.

Conventions of the embedding:

* JavaScript strings are Lean `String`s restricted to their ASCII behaviour
  (`toLowerCase` / `toUpperCase` / `\w` / `\s` are modelled on the ASCII
  range, which covers every keyword and example in the sources).
* JavaScript numbers that the code produces through `parseInt` are modelled
  as `Int`; `NaN` results are modelled as `none` at the point where the code
  checks `isNaN`, and as an explicit marker where the code stores them.
* A TS field of type `number | string | undefined` is `Option NumStr`;
  JavaScript truthiness (`undefined`, `0`, `""` are falsy) is made explicit.
* Character-class regex replacements (`/[$,\s]/g` etc.) become `List.filter`;
  structural regexes (`/\b\w/g`, the boilerplate patterns, word-boundary
  replacements) become dedicated scanners that mirror the pattern.
* DOM queries are inputs: a document is represented by the outcome of the
  queries the scraped code performs against it.
-/

namespace ClipNote

/-! ## JavaScript string primitives -/

/-- ASCII `String.prototype.toLowerCase` on a single character. -/
def jsLowerChar (c : Char) : Char :=
  if 65 ≤ c.toNat ∧ c.toNat ≤ 90 then Char.ofNat (c.toNat + 32) else c

/-- ASCII `String.prototype.toUpperCase` on a single character. -/
def jsUpperChar (c : Char) : Char :=
  if 97 ≤ c.toNat ∧ c.toNat ≤ 122 then Char.ofNat (c.toNat - 32) else c

def jsToLower (s : String) : String := ⟨s.toList.map jsLowerChar⟩

def jsToUpper (s : String) : String := ⟨s.toList.map jsUpperChar⟩

/-- JavaScript `\s` (ASCII part: space, tab, LF, VT, FF, CR). -/
def isJsWs (c : Char) : Bool :=
  c = ' ' ∨ c = '\t' ∨ c = '\n' ∨ c = '\x0b' ∨ c = '\x0c' ∨ c = '\r'

/-- JavaScript `\w`, i.e. `[A-Za-z0-9_]`. -/
def isWordChar (c : Char) : Bool :=
  (97 ≤ c.toNat ∧ c.toNat ≤ 122) ∨ (65 ≤ c.toNat ∧ c.toNat ≤ 90) ∨
    (48 ≤ c.toNat ∧ c.toNat ≤ 57) ∨ c.toNat = 95

def isDigitChar (c : Char) : Bool := 48 ≤ c.toNat ∧ c.toNat ≤ 57

def isAlphaChar (c : Char) : Bool :=
  (97 ≤ c.toNat ∧ c.toNat ≤ 122) ∨ (65 ≤ c.toNat ∧ c.toNat ≤ 90)

def jsTrimList (cs : List Char) : List Char :=
  ((cs.dropWhile isJsWs).reverse.dropWhile isJsWs).reverse

/-- JavaScript `String.prototype.trim` (ASCII whitespace). -/
def jsTrim (s : String) : String := ⟨jsTrimList s.toList⟩

/-- Does `hay` start with `needle`? (plain, case-sensitive) -/
def listStartsWith : List Char → List Char → Bool
  | [], _ => true
  | _ :: _, [] => false
  | n :: ns, h :: hs => n = h && listStartsWith ns hs

/-- Is `needle` a contiguous substring of `hay`? -/
def listIsInfix (needle hay : List Char) : Bool :=
  if listStartsWith needle hay then true
  else
    match hay with
    | [] => false
    | _ :: t => listIsInfix needle t

/-- JavaScript `String.prototype.includes`. -/
def jsIncludes (s sub : String) : Bool := listIsInfix sub.toList s.toList

/-- Case-insensitive character comparison (ASCII). -/
def ciEqChar (ci : Bool) (a b : Char) : Bool :=
  if ci then jsLowerChar a = jsLowerChar b else a = b

/-- Does `hay` start with `lit`, case-insensitively when `ci`? -/
def matchesLit (ci : Bool) : List Char → List Char → Bool
  | [], _ => true
  | _ :: _, [] => false
  | l :: ls, h :: hs => ciEqChar ci l h && matchesLit ci ls hs

/-- Numeric value of a digit character. -/
def digitVal (c : Char) : Nat := c.toNat - 48

def natOfDigits (ds : List Char) : Nat :=
  ds.foldl (fun a c => a * 10 + digitVal c) 0

/-- JavaScript `parseInt(s)` (radix 10): skip leading whitespace, optional
sign, then the longest run of decimal digits; `NaN` (here `none`) when that
run is empty.  The automatic `0x` hex detection is not modelled: every string
the scraper parses comes from decimal text. -/
def jsParseInt (s : String) : Option Int :=
  let cs := s.toList.dropWhile isJsWs
  match cs with
  | '-' :: rest =>
      let ds := rest.takeWhile isDigitChar
      if ds.isEmpty then none else some (-(natOfDigits ds : Int))
  | '+' :: rest =>
      let ds := rest.takeWhile isDigitChar
      if ds.isEmpty then none else some (natOfDigits ds : Int)
  | _ =>
      let ds := cs.takeWhile isDigitChar
      if ds.isEmpty then none else some (natOfDigits ds : Int)

/-- Collapse every run of `\s` characters to a single space
(`.replace(/\s+/g, ' ')`). -/
def collapseWsList : List Char → List Char
  | [] => []
  | c :: cs =>
    if isJsWs c then ' ' :: collapseWsList (cs.dropWhile isJsWs)
    else c :: collapseWsList cs
termination_by cs => cs.length
decreasing_by
  · simp only [List.length_cons]
    exact Nat.lt_succ_of_le (List.dropWhile_sublist isJsWs).length_le
  · simp

def collapseWs (s : String) : String := ⟨collapseWsList s.toList⟩

/-! ## `core/normalize.ts` -/

/-- `titleCase`: lowercase the string, then uppercase at `/\b\w/g`.  `prev` is
the previous character of the (lowercased) input, used for the `\b` test. -/
def titleCaseAux (prev : Option Char) : List Char → List Char
  | [] => []
  | c :: cs =>
    let boundary : Bool := match prev with
      | none => true
      | some p => !(isWordChar p)
    (if boundary && isWordChar c then jsUpperChar c else c) :: titleCaseAux (some c) cs

def titleCase (text : String) : String :=
  ⟨titleCaseAux none (text.toList.map jsLowerChar)⟩

/-- `normalizeTransmission` from `core/normalize.ts`: note that the
`automatic`/`auto` rule is tested before the `cvt` rule. -/
def normalizeTransmission (transmission : String) : String :=
  let cleaned := jsTrim (jsToLower transmission)
  if jsIncludes cleaned "automatic" || jsIncludes cleaned "auto" then "Automatic"
  else if jsIncludes cleaned "manual" || jsIncludes cleaned "stick" then "Manual"
  else if jsIncludes cleaned "cvt" then "CVT"
  else titleCase transmission

/-- `normalizeDrivetrain` from `core/normalize.ts`. -/
def normalizeDrivetrain (drivetrain : String) : String :=
  let cleaned := jsTrim (jsToLower drivetrain)
  if jsIncludes cleaned "front" || jsIncludes cleaned "fwd" then "FWD"
  else if jsIncludes cleaned "rear" || jsIncludes cleaned "rwd" then "RWD"
  else if jsIncludes cleaned "all" || jsIncludes cleaned "awd" then "AWD"
  else if jsIncludes cleaned "4wd" || jsIncludes cleaned "4x4" then "4WD"
  else titleCase drivetrain

/-- `normalizeFuelType` from `core/normalize.ts`: `hybrid` is tested before
`plug`. -/
def normalizeFuelType (fuelType : String) : String :=
  let cleaned := jsTrim (jsToLower fuelType)
  if jsIncludes cleaned "gasoline" || jsIncludes cleaned "gas" || jsIncludes cleaned "petrol" then
    "Gasoline"
  else if jsIncludes cleaned "diesel" then "Diesel"
  else if jsIncludes cleaned "electric" || jsIncludes cleaned "ev" then "Electric"
  else if jsIncludes cleaned "hybrid" then "Hybrid"
  else if jsIncludes cleaned "plug" then "Plug-in Hybrid"
  else titleCase fuelType

/-- Global replacement of `/\b<word>\b/` (case-insensitive when `ci`) by
`repl`, scanning left to right and continuing after each match, as JavaScript
`String.prototype.replace` with a `g` regex does.  `prevWord` records whether
the character before the current position is a `\w` character. -/
def replaceWordAux (ci : Bool) (w : Char) (ws repl : List Char) (prevWord : Bool) :
    List Char → List Char
  | [] => []
  | c :: cs =>
    if !prevWord && matchesLit ci (w :: ws) (c :: cs) &&
        (match (c :: cs).drop (ws.length + 1) with
         | [] => true
         | d :: _ => !(isWordChar d)) then
      let consumed := (c :: cs).take (ws.length + 1)
      let pw := match consumed.getLast? with
        | some d => isWordChar d
        | none => prevWord
      repl ++ replaceWordAux ci w ws repl pw ((c :: cs).drop (ws.length + 1))
    else
      c :: replaceWordAux ci w ws repl (isWordChar c) cs
termination_by cs => cs.length
decreasing_by
  · simp only [List.length_drop, List.length_cons]
    omega
  · simp

def replaceWord (ci : Bool) (word repl : String) (s : String) : String :=
  match word.toList with
  | [] => s
  | w :: ws => ⟨replaceWordAux ci w ws repl.toList false s.toList⟩

/-- `normalizeEngine` from `core/normalize.ts`. -/
def normalizeEngine (engine : String) : String :=
  let normalized := collapseWs (jsTrim engine)
  let normalized := replaceWord false "L" "Liter" normalized
  let normalized := replaceWord true "cyl" "Cylinder" normalized
  let normalized := replaceWord true "turbo" "Turbo" normalized
  let normalized := replaceWord true "supercharged" "Supercharged" normalized
  normalized

/-- Match length (in characters) of
`/call \d{3}[-.\s]?\d{3}[-.\s]?\d{4}/i` at the head of the input;
`none` when the pattern does not match here. -/
def isPhoneSep (c : Char) : Bool := c = '-' ∨ c = '.' ∨ isJsWs c

/-- Drop exactly `n` digits; `none` when fewer are available. -/
def dropExactDigits : Nat → List Char → Option (List Char)
  | 0, cs => some cs
  | _ + 1, [] => none
  | n + 1, c :: cs => if isDigitChar c then dropExactDigits n cs else none

/-- `[-.\s]?` — optional separator; the separator class is disjoint from the
digits that must follow, so the greedy option is deterministic. -/
def dropOptSep : List Char → List Char
  | [] => []
  | c :: cs => if isPhoneSep c then cs else c :: cs

def matchCallAt (cs : List Char) : Option Nat :=
  if matchesLit true "call ".toList cs then
    let r0 := cs.drop 5
    (dropExactDigits 3 r0).bind fun r1 =>
      let r1 := dropOptSep r1
      (dropExactDigits 3 r1).bind fun r2 =>
        let r2 := dropOptSep r2
        (dropExactDigits 4 r2).map fun r3 => cs.length - r3.length
  else none

/-- JavaScript `.` (not matching line terminators). -/
def isDotChar (c : Char) : Bool := ¬ (c = '\n' ∨ c = '\r')

/-- Match length of `/visit us at .+/i` at the head of the input. -/
def matchVisitAt (cs : List Char) : Option Nat :=
  if matchesLit true "visit us at ".toList cs then
    let rest := cs.drop 12
    let dots := rest.takeWhile isDotChar
    if dots.isEmpty then none else some (12 + dots.length)
  else none

/-- Match length of a case-insensitive literal at the head of the input. -/
def matchLitCiAt (lit : List Char) (cs : List Char) : Option Nat :=
  if matchesLit true lit cs then some lit.length else none

/-- Remove every (non-overlapping, leftmost-first) match of the pattern whose
anchored match length is computed by `matchAt` — JavaScript
`.replace(pattern, '')` with a global regex. -/
def removeAllMatches (matchAt : List Char → Option Nat) : List Char → List Char
  | [] => []
  | c :: cs =>
    match matchAt (c :: cs) with
    | some (n + 1) => removeAllMatches matchAt ((c :: cs).drop (n + 1))
    | _ => c :: removeAllMatches matchAt cs
termination_by cs => cs.length
decreasing_by
  · simp only [List.length_drop, List.length_cons]
    omega
  · simp

/-- `cleanDescription` from `core/normalize.ts`. -/
def cleanDescription (description : String) : String :=
  let cleaned := collapseWs (jsTrim description)
  let cs := cleaned.toList
  let cs := removeAllMatches matchCallAt cs
  let cs := removeAllMatches matchVisitAt cs
  let cs := removeAllMatches (matchLitCiAt "financing available".toList) cs
  let cs := removeAllMatches (matchLitCiAt "trade-ins welcome".toList) cs
  let cs := removeAllMatches (matchLitCiAt "extended warranty".toList) cs
  let cleaned := jsTrim (collapseWs ⟨cs⟩)
  if (cleaned != "") &&
      !(match cleaned.toList.getLast? with
        | some c => c = '.' || c = '!' || c = '?'
        | none => false) then
    cleaned ++ "."
  else cleaned

/-- A TypeScript `number | string` value. -/
inductive NumStr where
  | num (n : Int)
  | str (s : String)
deriving DecidableEq, Repr

/-- JavaScript truthiness of an optional `number | string` field. -/
def numStrTruthy : Option NumStr → Bool
  | none => false
  | some (.num n) => n ≠ 0
  | some (.str s) => s ≠ ""

/-- JavaScript truthiness of an optional string field. -/
def strTruthy : Option String → Bool
  | none => false
  | some s => s ≠ ""

/-- `RawVehicleData` from `types.ts`; `normalizeVehicleData` also returns this
shape at runtime (a falsy field is left exactly as it was). -/
structure RawVehicleData where
  year : Option NumStr := none
  make : Option String := none
  model : Option String := none
  trim : Option String := none
  bodyStyle : Option String := none
  price : Option NumStr := none
  mileage : Option NumStr := none
  exteriorColor : Option String := none
  interiorColor : Option String := none
  transmission : Option String := none
  drivetrain : Option String := none
  engine : Option String := none
  fuelType : Option String := none
  vin : Option String := none
  stockNumber : Option String := none
  description : Option String := none
  condition : Option String := none
deriving DecidableEq, Repr

/-- The `bodyStyleMap` table, in declaration order (`Object.entries` iterates
string keys in insertion order). -/
def bodyStyleMap : List (String × String) :=
  [("sport utility", "SUV"),
   ("sports utility vehicle", "SUV"),
   ("pickup truck", "Truck"),
   ("pick-up", "Truck"),
   ("station wagon", "Wagon"),
   ("convertible", "Convertible"),
   ("coupe", "Coupe"),
   ("sedan", "Sedan"),
   ("hatchback", "Hatchback"),
   ("minivan", "Minivan"),
   ("van", "Van")]

/-- The body-style block of `normalizeVehicleData`: title-case, then replace
by the first matching table entry. -/
def normBodyStyle (s : String) : String :=
  let t := titleCase (jsTrim s)
  let lower := jsToLower t
  match bodyStyleMap.find? (fun kv => jsIncludes lower kv.1) with
  | some kv => kv.2
  | none => t

/-- `if (x) { x = titleCase(x.trim()) }` for an optional string field. -/
def normTitleField (v : Option String) : Option String :=
  match v with
  | some s => if s ≠ "" then some (titleCase (jsTrim s)) else some s
  | none => none

/-- Truthy-guarded string transform (`if (x) { x = f(x) }`). -/
def normStrField (f : String → String) (v : Option String) : Option String :=
  match v with
  | some s => if s ≠ "" then some (f s) else some s
  | none => none

/-- The numeric block of `normalizeVehicleData`: when the field is truthy and
a string, strip characters with `strip`, `parseInt`, and drop the field when
the result `isNaN`; a truthy number is untouched; a falsy value is left
exactly as it was. -/
def normNumField (strip : String → String) (v : Option NumStr) : Option NumStr :=
  match v with
  | some (.str s) =>
      if s ≠ "" then
        match jsParseInt (strip s) with
        | some n => some (.num n)
        | none => none
      else some (.str s)
  | x => x

/-- `.replace(/[$,\s]/g, '')`. -/
def stripDollarCommaWs (s : String) : String :=
  ⟨s.toList.filter fun c => ¬ (c = '$' ∨ c = ',' ∨ isJsWs c)⟩

/-- `.replace(/[,\s]/g, '')`. -/
def stripCommaWs (s : String) : String :=
  ⟨s.toList.filter fun c => ¬ (c = ',' ∨ isJsWs c)⟩

/-- The VIN alphabet `[A-HJ-NPR-Z0-9]` (I, O, Q excluded): A–H (65–72),
J–N (74–78), P (80), R–Z (82–90), 0–9 (48–57). -/
def isVinChar (c : Char) : Bool :=
  (65 ≤ c.toNat ∧ c.toNat ≤ 72) ∨ (74 ≤ c.toNat ∧ c.toNat ≤ 78) ∨
    c.toNat = 80 ∨ (82 ≤ c.toNat ∧ c.toNat ≤ 90) ∨ (48 ≤ c.toNat ∧ c.toNat ≤ 57)

/-- The VIN block of `normalizeVehicleData`: uppercase, strip characters
outside the VIN alphabet (`.replace(/[^A-HJ-NPR-Z0-9]/g, '')`), and drop the
field when the remaining length is not 17. -/
def normVin (s : String) : Option String :=
  let v := (jsToUpper s).toList.filter isVinChar
  if v.length ≠ 17 then none else some ⟨v⟩

/-- `normalizeVehicleData` from `core/normalize.ts`. -/
def normalizeVehicleData (vehicle : RawVehicleData) : RawVehicleData :=
  { vehicle with
    make := normTitleField vehicle.make
    model := normTitleField vehicle.model
    trim := normTitleField vehicle.trim
    bodyStyle := normStrField normBodyStyle vehicle.bodyStyle
    price := normNumField stripDollarCommaWs vehicle.price
    mileage := normNumField stripCommaWs vehicle.mileage
    year := normNumField id vehicle.year
    exteriorColor := normTitleField vehicle.exteriorColor
    interiorColor := normTitleField vehicle.interiorColor
    transmission := normStrField normalizeTransmission vehicle.transmission
    drivetrain := normStrField normalizeDrivetrain vehicle.drivetrain
    fuelType := normStrField normalizeFuelType vehicle.fuelType
    engine := normStrField normalizeEngine vehicle.engine
    vin := (match vehicle.vin with
            | some s => if s ≠ "" then normVin s else some s
            | none => none)
    description := normStrField cleanDescription vehicle.description
    condition := if strTruthy vehicle.condition then vehicle.condition else some "Used" }

/-! ## `core/photos.ts` -/

/-- The parts of `window.location` the photo collector reads. -/
structure Location where
  protocol : String
  origin : String
  pathname : String
deriving DecidableEq, Repr

/-- An ancestor element of an image, as far as the photo collector reads it:
its class, id, and computed `background-image`. -/
structure Ancest where
  className : String := ""
  id : String := ""
  bgImage : String := "none"
deriving DecidableEq, Repr

/-- An `HTMLImageElement`, restricted to the attributes `extractImageUrls`,
`isMainImage` and the photo constructor read.  `ancestors` is the parent
chain up to (excluding) `document.body`, nearest parent first. -/
structure ImgElement where
  src : String := ""
  srcset : String := ""
  dataSrc : Option String := none
  dataOriginal : Option String := none
  dataLazy : Option String := none
  dataFull : Option String := none
  dataLarge : Option String := none
  naturalWidth : Nat := 0
  width : Nat := 0
  naturalHeight : Nat := 0
  height : Nat := 0
  className : String := ""
  id : String := ""
  ancestors : List Ancest := []
deriving DecidableEq, Repr

/-- The `Photo` record from `types.ts`. -/
structure Photo where
  url : String
  width : Option Nat
  height : Option Nat
  isMain : Bool
deriving DecidableEq, Repr

/-- JavaScript `String.prototype.split` on a single separator character. -/
def splitOnChar (sep : Char) : List Char → List (List Char)
  | [] => [[]]
  | c :: cs =>
    if c = sep then [] :: splitOnChar sep cs
    else
      match splitOnChar sep cs with
      | [] => [[c]]
      | t :: ts => (c :: t) :: ts

/-- JavaScript `split(/\s+/)`: split on maximal whitespace runs (a leading
run yields an initial empty piece, as in JavaScript). -/
def splitWsRuns : List Char → List (List Char)
  | [] => [[]]
  | c :: cs =>
    if isJsWs c then [] :: splitWsRuns (cs.dropWhile isJsWs)
    else
      match splitWsRuns cs with
      | [] => [[c]]
      | t :: ts => (c :: t) :: ts
termination_by cs => cs.length
decreasing_by
  · simp only [List.length_cons]
    exact Nat.lt_succ_of_le (List.dropWhile_sublist isJsWs).length_le
  · simp

/-- JavaScript `parseFloat`: optional sign, then decimal digits with an
optional fractional part.  The exponent form is not modelled (no srcset
descriptor in scope uses it); the result is kept exact as a rational. -/
def jsParseFloat (s : String) : Option Rat :=
  let cs := s.toList.dropWhile isJsWs
  let signed : Rat × List Char :=
    match cs with
    | '-' :: r => (-1, r)
    | '+' :: r => (1, r)
    | _ => (1, cs)
  let ip := signed.2.takeWhile isDigitChar
  let rest := signed.2.drop ip.length
  match rest with
  | '.' :: r =>
      let fp := r.takeWhile isDigitChar
      if ip.isEmpty && fp.isEmpty then none
      else some (signed.1 * ((natOfDigits ip : Rat) + (natOfDigits fp : Rat) / (10 : Rat) ^ fp.length))
  | _ => if ip.isEmpty then none else some (signed.1 * (natOfDigits ip : Rat))

/-- JavaScript `Math.round` (half toward positive infinity). -/
def jsRound (q : Rat) : Int := Int.floor (q + 1 / 2)

/-- `parseSrcset` from `core/photos.ts`: comma-separated `url descriptor`
pairs; `w` descriptors give the width, `x` descriptors are scaled from an
assumed 1920px base; entries are sorted by width, highest first, and the
URLs returned. -/
def parseSrcset (srcset : String) : List String :=
  let sources := (splitOnChar ',' srcset.toList).map jsTrimList
  let parsed : List (String × Rat) := sources.map fun source =>
    let parts := splitWsRuns source
    let url : List Char := parts.headD []
    let width : Rat :=
      match parts with
      | _ :: descriptor :: _ =>
        match descriptor.getLast? with
        | some 'w' => ((jsParseInt ⟨descriptor.dropLast⟩).getD 0 : Int)
        | some 'x' =>
            let density : Rat :=
              match jsParseFloat ⟨descriptor.dropLast⟩ with
              | some q => if q = 0 then 1 else q
              | none => 1
            (jsRound (1920 * density) : Int)
        | _ => 0
      | _ => 0
    (⟨url⟩, width)
  (List.insertionSort (fun a b : String × Rat => b.2 ≤ a.2) parsed).map Prod.fst

def isQuoteChar (c : Char) : Bool := c = '\'' || c = '"'

/-- `['"]? \)` — the closing part of the background-image pattern. -/
def bgCloseOk : List Char → Bool
  | ')' :: _ => true
  | q :: ')' :: _ => isQuoteChar q
  | _ => false

/-- Greedy search for the content length of `([^'"]+)` so that the closing
`['"]?\)` matches immediately after (longest content first, as the greedy
`+` backtracks). -/
def bgTryLens (m tail : List Char) : Nat → Option (List Char)
  | 0 => none
  | k + 1 =>
    if bgCloseOk (m.drop (k + 1) ++ tail) then some (m.take (k + 1))
    else bgTryLens m tail k

/-- Anchored match of `/url\(['"]?([^'"]+)['"]?\)/`, returning group 1. -/
def bgMatchAt (cs : List Char) : Option (List Char) :=
  if listStartsWith "url(".toList cs then
    let r := cs.drop 4
    let r := match r with
      | q :: rest => if isQuoteChar q then rest else q :: rest
      | [] => []
    let m := r.takeWhile fun c => !(isQuoteChar c)
    bgTryLens m (r.drop m.length) m.length
  else none

/-- Leftmost match of the background-image URL pattern. -/
def bgScan : List Char → Option (List Char)
  | [] => none
  | c :: cs =>
    match bgMatchAt (c :: cs) with
    | some content => some content
    | none => bgScan cs

/-- `bgImage.match(/url\(['"]?([^'"]+)['"]?\)/)`, group 1. -/
def parseBgUrl (bg : String) : Option String := (bgScan bg.toList).map String.mk

/-- `extractImageUrls` from `core/photos.ts`: `src`, the srcset URLs, the
lazy-load data attributes, then the ancestors' CSS background images. -/
def extractImageUrls (img : ImgElement) : List String :=
  (if img.src ≠ "" then [img.src] else [])
    ++ (if img.srcset ≠ "" then parseSrcset img.srcset else [])
    ++ ([img.dataSrc, img.dataOriginal, img.dataLazy, img.dataFull, img.dataLarge].filterMap
          fun v =>
            match v with
            | some s => if s ≠ "" then some s else none
            | none => none)
    ++ (img.ancestors.filterMap fun p =>
          if p.bgImage ≠ "" ∧ p.bgImage ≠ "none" then parseBgUrl p.bgImage else none)

def jsStartsWith (s p : String) : Bool := listStartsWith p.toList s.toList

def jsEndsWith (s suffix : String) : Bool :=
  listStartsWith suffix.toList.reverse s.toList.reverse

/-- `pathname.replace(/\/[^\/]*$/, '/')`: cut everything after the last
slash (inclusive) and put the slash back. -/
def stripAfterLastSlash (p : String) : String :=
  let cs := p.toList
  match cs.reverse.findIdx? (· = '/') with
  | some i => ⟨cs.take (cs.length - 1 - i) ++ ['/']⟩
  | none => p

/-- `makeAbsoluteUrl` from `core/photos.ts`. -/
def makeAbsoluteUrl (loc : Location) (url : String) : String :=
  if jsStartsWith url "http://" || jsStartsWith url "https://" then url
  else if jsStartsWith url "//" then loc.protocol ++ url
  else if jsStartsWith url "/" then loc.origin ++ url
  else
    let currentPath := stripAfterLastSlash loc.pathname
    loc.origin ++ currentPath ++ url

/-- A parsed URL, as far as `cleanImageUrl` / `isValidImageUrl` use it. -/
structure UrlObj where
  scheme : String
  host : String
  path : String
  query : List (String × String)
  fragment : Option String
deriving DecidableEq, Repr

/-- Split at the first occurrence of `sep`; `none` when absent. -/
def splitFirst (sep : Char) : List Char → List Char × Option (List Char)
  | [] => ([], none)
  | c :: rest =>
    if c = sep then ([], some rest)
    else
      let p := splitFirst sep rest
      (c :: p.1, p.2)

/-- Parse a query string into `URLSearchParams`-style name/value pairs
(empty `&`-pieces are skipped; a missing `=` gives an empty value). -/
def parseQuery (cs : List Char) : List (String × String) :=
  (splitOnChar '&' cs).filterMap fun piece =>
    if piece.isEmpty then none
    else
      let p := splitFirst '=' piece
      some (⟨p.1⟩, ⟨(p.2).getD []⟩)

/-- Parsing model of `new URL(url)`: `scheme "://" host [path] ["?" query]
["#" fragment]`, restricted to the absolute http(s)-style URLs the scraper
builds (no user-info/port/percent-encoding normalization); anything else
throws in the browser and is `none` here. -/
def urlParse (url : String) : Option UrlObj :=
  let cs := url.toList
  let scheme := cs.takeWhile isAlphaChar
  let rest := cs.drop scheme.length
  if scheme.isEmpty then none
  else if ¬ listStartsWith "://".toList rest then none
  else
    let rest := rest.drop 3
    let host := rest.takeWhile fun c => ¬ (c = '/' ∨ c = '?' ∨ c = '#')
    if host.isEmpty then none
    else
      let rest := rest.drop host.length
      let path := rest.takeWhile fun c => ¬ (c = '?' ∨ c = '#')
      let rest := rest.drop path.length
      let path := if path.isEmpty then ['/'] else path
      match rest with
      | '?' :: qf =>
        let q := qf.takeWhile (· ≠ '#')
        let rest := qf.drop q.length
        let frag : Option String :=
          match rest with
          | _ :: f => some ⟨f⟩
          | [] => none
        some ⟨⟨scheme⟩, ⟨host⟩, ⟨path⟩, parseQuery q, frag⟩
      | _ :: f => some ⟨⟨scheme⟩, ⟨host⟩, ⟨path⟩, [], some ⟨f⟩⟩
      | [] => some ⟨⟨scheme⟩, ⟨host⟩, ⟨path⟩, [], none⟩

def serializeQuery (q : List (String × String)) : String :=
  String.intercalate "&" (q.map fun p => p.1 ++ "=" ++ p.2)

/-- `URL.prototype.toString` for the model (`searchParams` mutations
re-serialize the query; an empty query and an empty fragment disappear). -/
def serializeUrl (u : UrlObj) : String :=
  u.scheme ++ "://" ++ u.host ++ u.path
    ++ (if u.query.isEmpty then "" else "?" ++ serializeQuery u.query)
    ++ (match u.fragment with
        | some f => "#" ++ f
        | none => "")

/-- The `trackingParams` table of `cleanImageUrl`, in source order. -/
def trackingParams : List String :=
  ["utm_source", "utm_medium", "utm_campaign", "utm_content",
   "gclid", "fbclid", "_ga", "ref", "referrer"]

/-- `cleanImageUrl` from `core/photos.ts`: delete the listed tracking
parameters, clear the fragment, re-serialize; if URL parsing fails, return
the original string. -/
def cleanImageUrl (url : String) : String :=
  match urlParse url with
  | some u =>
      serializeUrl
        { u with
          query := u.query.filter fun p => !(trackingParams.contains p.1)
          fragment := none }
  | none => url

def imageExtensions : List String := [".jpg", ".jpeg", ".png", ".gif", ".webp", ".bmp"]

def imageIndicators : List String :=
  ["/image/", "/img/", "/photo/", "/picture/", "/gallery/",
   "images.", "photos.", "media.", "cdn."]

/-- `isValidImageUrl` from `core/photos.ts`. -/
def isValidImageUrl (url : String) : Bool :=
  match urlParse url with
  | some u =>
    let pathname := jsToLower u.path
    if imageExtensions.any (fun ext => jsEndsWith pathname ext) then true
    else imageIndicators.any fun indicator => jsIncludes (jsToLower url) indicator
  | none => false

def mainImageIndicators : List String :=
  ["hero", "main", "primary", "featured", "highlight", "large", "big", "banner"]

/-- `isMainImage` from `core/photos.ts`: class/id indicator on the image, or
on an ancestor up to 3 levels, or natural pixel area above 500000. -/
def isMainImage (img : ImgElement) : Bool :=
  let className := jsToLower img.className
  let id := jsToLower img.id
  if mainImageIndicators.any (fun ind => jsIncludes className ind || jsIncludes id ind) then
    true
  else if (img.ancestors.take 3).any (fun p =>
      mainImageIndicators.any fun ind =>
        jsIncludes (jsToLower p.className) ind || jsIncludes (jsToLower p.id) ind) then
    true
  else
    let imageSize := (if img.naturalWidth ≠ 0 then img.naturalWidth else img.width) *
      (if img.naturalHeight ≠ 0 then img.naturalHeight else img.height)
    imageSize > 500000

/-- `img.naturalWidth || img.width || undefined` (and the same for height). -/
def photoDimension (naturalD d : Nat) : Option Nat :=
  if naturalD ≠ 0 then some naturalD else if d ≠ 0 then some d else none

/-- `(p.width || 0) * (p.height || 0)` — unknown dimensions count as zero. -/
def photoArea (p : Photo) : Nat := p.width.getD 0 * p.height.getD 0

/-- The sort comparator of `extractPhotos`: main images first, then larger
pixel area first. -/
def photoCmp (a b : Photo) : Int :=
  if a.isMain && !b.isMain then -1
  else if !a.isMain && b.isMain then 1
  else (photoArea b : Int) - (photoArea a : Int)

/-- `photoCmp a b ≤ 0`: `a` may come before `b` in the sorted output. -/
def photoLe (a b : Photo) : Prop := photoCmp a b ≤ 0

instance : DecidableRel photoLe := fun _ _ => inferInstanceAs (Decidable (_ ≤ 0))

/-- The `Photo` object `extractPhotos` builds for an accepted URL. -/
def photoOf (img : ImgElement) (cleanUrl : String) : Photo :=
  { url := cleanUrl
    width := photoDimension img.naturalWidth img.width
    height := photoDimension img.naturalHeight img.height
    isMain := isMainImage img }

/-- The inner loop of `extractPhotos`: resolve, clean, and accept each
candidate URL of one image (set-based dedup via `seen`, validity heuristic),
appending accepted photos to `acc`. -/
def processCandidates (loc : Location) (img : ImgElement) :
    List String → List String × List Photo → List String × List Photo
  | [], st => st
  | url :: rest, (seen, acc) =>
    let absoluteUrl := makeAbsoluteUrl loc url
    let cleanUrl := cleanImageUrl absoluteUrl
    if (cleanUrl != "") && !(seen.contains cleanUrl) && isValidImageUrl cleanUrl then
      processCandidates loc img rest (cleanUrl :: seen, acc ++ [photoOf img cleanUrl])
    else processCandidates loc img rest (seen, acc)

/-- The outer loop of `extractPhotos` over the image elements. -/
def processImages (loc : Location) :
    List ImgElement → List String × List Photo → List String × List Photo
  | [], st => st
  | img :: rest, st =>
    processImages loc rest (processCandidates loc img (extractImageUrls img) st)

/-- `extractPhotos` from `core/photos.ts`, starting from the deduplicated
union of image elements matched by the selectors (`imgs`, in document
order): collect and dedup the photos, then sort with `photoCmp` (stable, as
`Array.prototype.sort` is). -/
def extractPhotos (loc : Location) (imgs : List ImgElement) : List Photo :=
  List.insertionSort photoLe (processImages loc imgs ([], [])).2

/-- Every cleaned candidate URL, in processing order. -/
def allCleanedUrls (loc : Location) (imgs : List ImgElement) : List String :=
  imgs.flatMap fun img =>
    (extractImageUrls img).map fun u => cleanImageUrl (makeAbsoluteUrl loc u)

/-! ## Shared regex scanners (title, mileage, VIN, phone, address, spec) -/

/-- `match(/(\d+)/)`: the leftmost run of decimal digits. -/
def firstDigitRun : List Char → Option (List Char)
  | [] => none
  | c :: cs =>
    if isDigitChar c then some ((c :: cs).takeWhile isDigitChar)
    else firstDigitRun cs

/-- All splits of a leading one-or-more run of `p`-characters, longest
first: the backtracking order of a greedy `+` over a character class. -/
def plusGreedy (p : Char → Bool) (cs : List Char) : List (List Char × List Char) :=
  let m := cs.takeWhile p
  (List.range m.length).map fun i => (m.take (m.length - i), cs.drop (m.length - i))

/-- Shortest first: the backtracking order of a lazy `+?`. -/
def plusLazy (p : Char → Bool) (cs : List Char) : List (List Char × List Char) :=
  let m := cs.takeWhile p
  (List.range m.length).map fun i => (m.take (i + 1), cs.drop (i + 1))

/-- Zero-or-more, longest first: a greedy `*`. -/
def starGreedy (p : Char → Bool) (cs : List Char) : List (List Char × List Char) :=
  let m := cs.takeWhile p
  (List.range (m.length + 1)).map fun i => (m.take (m.length - i), cs.drop (m.length - i))

/-- A greedy optional literal character (`c?`): with it first, then without. -/
def optGreedyChar (c : Char) (cs : List Char) : List (List Char × List Char) :=
  match cs with
  | d :: r => if d = c then [([d], r), ([], d :: r)] else [([], d :: r)]
  | [] => [([], [])]

/-- Exactly `n` characters satisfying `p` (`p{n}`). -/
def exactly (p : Char → Bool) (n : Nat) (cs : List Char) : Option (List Char × List Char) :=
  let m := cs.take n
  if m.length = n && m.all p then some (m, cs.drop n) else none

/-- The capture groups of the shared title-parsing regex
`/(\d{4})\s+([A-Za-z]+)\s+([A-Za-z0-9\s]+?)(?:\s+([A-Za-z0-9\s]+))?$/`. -/
structure TitleGroups where
  g1 : List Char
  g2 : List Char
  g3 : List Char
  g4 : Option (List Char)
deriving DecidableEq, Repr

def isTitleClass (c : Char) : Bool := isAlphaChar c || isDigitChar c || isJsWs c

/-- Anchored-at-`cs` match of the title regex, alternatives explored in the
JavaScript backtracking order (greedy `+` longest first, lazy `+?` shortest
first, the optional group with-first, `$` = end of input). -/
def titleMatchAt (cs : List Char) : Option TitleGroups :=
  (do
    let (g1, r1) ← (exactly isDigitChar 4 cs).toList
    let (_, r2) ← plusGreedy isJsWs r1
    let (g2, r3) ← plusGreedy isAlphaChar r2
    let (_, r4) ← plusGreedy isJsWs r3
    let (g3, r5) ← plusLazy isTitleClass r4
    let (g4, r6) ←
      (do
        let (_, ra) ← plusGreedy isJsWs r5
        let (g4c, rb) ← plusGreedy isTitleClass ra
        pure ((some g4c : Option (List Char)), rb))
      ++ [((none : Option (List Char)), r5)]
    if r6.isEmpty then pure (⟨g1, g2, g3, g4⟩ : TitleGroups) else []).head?

/-- Leftmost match of the title regex (`String.prototype.match`). -/
def titleSearch : List Char → Option TitleGroups
  | [] => none
  | c :: cs =>
    match titleMatchAt (c :: cs) with
    | some g => some g
    | none => titleSearch cs

/-- Maximal number of leading `(?:,\d{3})` repetitions. -/
def commaRunsCount : List Char → Nat
  | ',' :: a :: b :: c :: rest =>
    if isDigitChar a && isDigitChar b && isDigitChar c then 1 + commaRunsCount rest else 0
  | _ => 0

/-- Splits for a greedy `(?:,\d{3})*`, most repetitions first. -/
def commaGroups (cs : List Char) : List (List Char × List Char) :=
  let k := commaRunsCount cs
  (List.range (k + 1)).map fun i => (cs.take ((k - i) * 4), cs.drop ((k - i) * 4))

/-- Anchored match of `/(\d{1,3}(?:,\d{3})*)\s*miles?/i`, returning
group 1. -/
def mileageMatchAt (cs : List Char) : Option (List Char) :=
  (do
    let (g, r) ← (List.range 3).filterMap fun i => exactly isDigitChar (3 - i) cs
    let (g2, r2) ← commaGroups r
    let (_, r3) ← starGreedy isJsWs r2
    if matchesLit true "mile".toList r3 then pure (g ++ g2) else []).head?

/-- Leftmost match, group 1, of the mileage regex. -/
def mileageSearch : List Char → Option (List Char)
  | [] => none
  | c :: cs =>
    match mileageMatchAt (c :: cs) with
    | some g => some g
    | none => mileageSearch cs

/-- Leftmost match of `/\b[A-HJ-NPR-Z0-9]{17}\b/` (`prevWord` tracks whether
the previous character is a `\w` character, for the `\b` assertions). -/
def vinSearchAux (prevWord : Bool) : List Char → Option (List Char)
  | [] => none
  | c :: cs =>
    match
      (if !prevWord then
        match exactly isVinChar 17 (c :: cs) with
        | some (m, rest) =>
          if (match rest with
              | [] => true
              | d :: _ => !(isWordChar d)) then some m else none
        | none => none
      else none) with
    | some m => some m
    | none => vinSearchAux (isWordChar c) cs

def vinSearch (cs : List Char) : Option (List Char) := vinSearchAux false cs

/-- Anchored match length of `/\d{3}[-.\s]?\d{3}[-.\s]?\d{4}/` (the phone
pattern; the separator class is disjoint from the digits, so the greedy
optionals are deterministic). -/
def phoneMatchAt (cs : List Char) : Option Nat :=
  (dropExactDigits 3 cs).bind fun r1 =>
    let r1 := dropOptSep r1
    (dropExactDigits 3 r1).bind fun r2 =>
      let r2 := dropOptSep r2
      (dropExactDigits 4 r2).map fun r3 => cs.length - r3.length

/-- Leftmost match of the phone pattern. -/
def phoneSearch : List Char → Option (List Char)
  | [] => none
  | c :: cs =>
    match phoneMatchAt (c :: cs) with
    | some n => some ((c :: cs).take n)
    | none => phoneSearch cs

def isAlphaWs (c : Char) : Bool := isAlphaChar c || isJsWs c

def isUpperChar (c : Char) : Bool := 65 ≤ c.toNat ∧ c.toNat ≤ 90

/-- Anchored match of `/([A-Za-z\s]+),\s*([A-Z]{2})\s*(\d{5})/` returning
the three groups (city part, state, zip). -/
def addressMatchAt (cs : List Char) : Option (List Char × List Char × List Char) :=
  let g1 := cs.takeWhile isAlphaWs
  if g1.isEmpty then none
  else
    match cs.drop g1.length with
    | ',' :: r =>
      let r2 := r.dropWhile isJsWs
      match exactly isUpperChar 2 r2 with
      | some (st, r3) =>
        let r4 := r3.dropWhile isJsWs
        match exactly isDigitChar 5 r4 with
        | some (z, _) => some (g1, st, z)
        | none => none
      | none => none
    | _ => none

/-- Leftmost match of the address pattern. -/
def addressSearch : List Char → Option (List Char × List Char × List Char)
  | [] => none
  | c :: cs =>
    match addressMatchAt (c :: cs) with
    | some g => some g
    | none => addressSearch cs

/-- Anchored match, group 1, of the dynamic spec regex
`new RegExp(specType + '\\s*:?\\s*([^\\n\\r]+)', 'i')`. -/
def specValueMatchAt (specType : List Char) (cs : List Char) : Option (List Char) :=
  (if matchesLit true specType cs then
    (do
      let (_, r1) ← starGreedy isJsWs (cs.drop specType.length)
      let (_, r2) ← optGreedyChar ':' r1
      let (_, r3) ← starGreedy isJsWs r2
      let (g, _) ← plusGreedy isDotChar r3
      pure g)
  else []).head?

/-- Leftmost match of the spec-value regex. -/
def specValueSearch (specType : List Char) : List Char → Option (List Char)
  | [] => none
  | c :: cs =>
    match specValueMatchAt specType (c :: cs) with
    | some g => some g
    | none => specValueSearch specType cs

/-- `extractSpecValue` shared by the adapters: text after the first `:` when
present, else the regex capture, else the trimmed full text. -/
def extractSpecValue (fullText specType : String) : String :=
  let parts := splitOnChar ':' fullText.toList
  if parts.length > 1 then jsTrim ⟨(parts.drop 1).headD []⟩
  else
    match specValueSearch specType.toList fullText.toList with
    | some g => jsTrim ⟨g⟩
    | none => jsTrim fullText

/-! ## The scraping engine (`ScrapingEngine.validateScrapeResult`) -/

/-- `Dealer` from `types.ts`. -/
structure Dealer where
  name : Option String := none
  phone : Option String := none
  city : Option String := none
  state : Option String := none
  zip : Option String := none
deriving DecidableEq, Repr

/-- `ScrapeResult` from `types.ts` (the vehicle keeps its runtime shape). -/
structure ScrapeResult where
  vehicle : RawVehicleData
  dealer : Dealer
  photos : List Photo
  sourceUrl : String
  scrapedAt : Int
  warnings : List String
  id : String
deriving DecidableEq, Repr

/-- `Number(s)` restricted to optional-sign decimal literals (whitespace-only
is 0); hex/exponent/`Infinity` forms are not modelled — this is used only for
the `<`/`>` coercion on a string-valued numeric field, which the pipeline
never produces.  Kept exact as a rational. -/
def jsNumber (s : String) : Option Rat :=
  let cs := jsTrimList s.toList
  if cs.isEmpty then some 0
  else
    let signed : Rat × List Char :=
      match cs with
      | '-' :: r => (-1, r)
      | '+' :: r => (1, r)
      | _ => (1, cs)
    let ip := signed.2.takeWhile isDigitChar
    let rest := signed.2.drop ip.length
    match rest with
    | [] => if ip.isEmpty then none else some (signed.1 * (natOfDigits ip : Rat))
    | '.' :: r =>
        let fp := r.takeWhile isDigitChar
        if (r.drop fp.length).isEmpty then
          if ip.isEmpty && fp.isEmpty then none
          else some (signed.1 *
            ((natOfDigits ip : Rat) + (natOfDigits fp : Rat) / (10 : Rat) ^ fp.length))
        else none
    | _ => none

/-- JavaScript `v < k` for a `number | string` value (a string is coerced
with `Number`; `NaN` comparisons are false). -/
def numStrLt (v : NumStr) (k : Int) : Bool :=
  match v with
  | .num n => n < k
  | .str s =>
    match jsNumber s with
    | some q => q < (k : Rat)
    | none => false

/-- JavaScript `v > k` for a `number | string` value. -/
def numStrGt (v : NumStr) (k : Int) : Bool :=
  match v with
  | .num n => k < n
  | .str s =>
    match jsNumber s with
    | some q => (k : Rat) < q
    | none => false

/-- The `missingFields` array of `validateScrapeResult`: the required fields
among year, make, model, price (in that order) whose value is falsy. -/
def missingFields (vehicle : RawVehicleData) : List String :=
  (if !(numStrTruthy vehicle.year) then ["year"] else [])
    ++ (if !(strTruthy vehicle.make) then ["make"] else [])
    ++ (if !(strTruthy vehicle.model) then ["model"] else [])
    ++ (if !(numStrTruthy vehicle.price) then ["price"] else [])

/-- The VIN-format warning of `validateScrapeResult`
(`/^[A-HJ-NPR-Z0-9]{17}$/`), emitted only when the field is truthy. -/
def vinWarning (vin : Option String) : List String :=
  match vin with
  | some v =>
    if v ≠ "" then
      if !(v.toList.length = 17 && v.toList.all isVinChar) then
        ["VIN format appears invalid"]
      else []
    else []
  | none => []

/-- One truthy-guarded range check of `validateScrapeResult` (the year,
price and mileage checks all follow this shape). -/
def rangeWarning (v : Option NumStr) (lo hi : Int) (msg : String) : List String :=
  match v with
  | some x =>
    if numStrTruthy (some x) then
      if numStrLt x lo || numStrGt x hi then [msg] else []
    else []
  | none => []

/-- The warning strings `validateScrapeResult` pushes, in push order. -/
def addedWarnings (currentYear : Int) (result : ScrapeResult) : List String :=
  (if (missingFields result.vehicle).length > 0 then
    ["Missing required fields: " ++ String.intercalate ", " (missingFields result.vehicle)]
  else [])
    ++ vinWarning result.vehicle.vin
    ++ rangeWarning result.vehicle.year 1950 (currentYear + 1) "Vehicle year appears out of range"
    ++ rangeWarning result.vehicle.price 100 1000000 "Price appears out of normal range"
    ++ rangeWarning result.vehicle.mileage 0 1000000 "Mileage appears out of normal range"
    ++ (if result.photos.length = 0 then ["No photos found"] else [])

/-- `ScrapingEngine.validateScrapeResult`: appends warnings, touches nothing
else (`currentYear` stands for `new Date().getFullYear()`). -/
def validateScrapeResult (currentYear : Int) (result : ScrapeResult) : ScrapeResult :=
  { result with warnings := result.warnings ++ addedWarnings currentYear result }

/-! ## `adapters/cargurus.ts` -/

/-- A DOM element as the CarGurus adapter reads it: its text content and the
results of `querySelectorAll` scoped to it. -/
inductive Elem where
  | mk (textContent : String) (queryAll : String → List Elem)

def Elem.textContent : Elem → String
  | .mk t _ => t

def Elem.queryAll : Elem → String → List Elem
  | .mk _ q => q

/-- Outcome of one `document.querySelector(selector)` call: a match, no
match, or a thrown `SyntaxError` for an invalid selector (caught and
skipped by `SelectorProbe.findElement`). -/
inductive QueryRes where
  | threw
  | notFound
  | found (e : Elem)

/-- A document, represented by the outcome of the queries the CarGurus
adapter performs against it.  `byLabel` is the outcome of
`SelectorProbe.findByLabel` for a container (`none` = the document) and a
label list — the probe's DOM walking (TreeWalker, computed styles,
bounding boxes) lives in browser APIs outside the shallow embedding.
`images` is the deduplicated union of elements matched by the photo
selectors, in document order. -/
structure CgDoc where
  query : String → QueryRes
  byLabel : Option Elem → List String → Option Elem
  bodyText : String
  images : List ImgElement
  href : String
  loc : Location

/-- `SelectorProbe.findElement`: first selector whose query finds an
element; invalid selectors are caught and skipped. -/
def findElement (doc : CgDoc) : List String → Option Elem
  | [] => none
  | sel :: rest =>
    match doc.query sel with
    | .found e => some e
    | _ => findElement doc rest

/-- Shared title-parse step: fill year/make, split group 3 into model and
trim, append group 4 to the trim. -/
def assignTitleGroups (g : TitleGroups) (vehicle : RawVehicleData) : RawVehicleData :=
  let vehicle := { vehicle with
    year := (jsParseInt ⟨g.g1⟩).map NumStr.num
    make := some ⟨g.g2⟩ }
  let parts := splitWsRuns (jsTrimList g.g3)
  let vehicle := { vehicle with model := some ⟨parts.headD []⟩ }
  let vehicle :=
    if parts.length > 1 then
      { vehicle with trim := some (String.intercalate " " ((parts.drop 1).map String.mk)) }
    else vehicle
  match g.g4 with
  | some g4 =>
    { vehicle with
      trim := some ((match vehicle.trim with
        | some t => if t ≠ "" then t ++ " " else ""
        | none => "") ++ String.mk g4) }
  | none => vehicle

def cgExtractTitleInfo (doc : CgDoc) (vehicle : RawVehicleData) (warnings : List String) :
    RawVehicleData × List String :=
  match findElement doc [".cg-listingDetail-model", "h1[data-cg-ft=\"listing-title\"]",
      ".listing-title h1", ".vehicle-title", ".vdp-header h1"] with
  | some titleElement =>
    let titleText := jsTrim titleElement.textContent
    match titleSearch titleText.toList with
    | some g => (assignTitleGroups g vehicle, warnings)
    | none => (vehicle, warnings ++ ["Could not parse vehicle title format"])
  | none => (vehicle, warnings ++ ["Vehicle title not found"])

def cgExtractPriceAndMileage (doc : CgDoc) (vehicle : RawVehicleData)
    (warnings : List String) : RawVehicleData × List String :=
  let pm : RawVehicleData × List String :=
    match findElement doc [".cg-listingDetail-price", "[data-cg-ft=\"listing-price\"]",
        ".listing-price", ".price-section .price"] with
    | some priceElement =>
      let priceText : String :=
        ⟨priceElement.textContent.toList.filter fun c => ¬ (c = '$' ∨ c = ',')⟩
      (match firstDigitRun priceText.toList with
       | some ds => ({ vehicle with price := (jsParseInt ⟨ds⟩).map NumStr.num }, warnings)
       | none => (vehicle, warnings))
    | none => (vehicle, warnings ++ ["Price not found"])
  let vehicle := pm.1
  let warnings := pm.2
  match findElement doc [".cg-listingDetail-mileage", "[data-cg-ft=\"listing-mileage\"]",
      ".listing-mileage", ".mileage-display"] with
  | some mileageElement =>
    let mileageText := stripCommaWs mileageElement.textContent
    (match firstDigitRun mileageText.toList with
     | some ds => ({ vehicle with mileage := (jsParseInt ⟨ds⟩).map NumStr.num }, warnings)
     | none => (vehicle, warnings))
  | none =>
    match mileageSearch doc.bodyText.toList with
    | some g =>
      ({ vehicle with mileage := (jsParseInt ⟨g.filter (· ≠ ',')⟩).map NumStr.num }, warnings)
    | none => (vehicle, warnings ++ ["Mileage not found"])

/-- The per-item branch of the CarGurus spec loop. -/
def cgSpecAssign (vehicle : RawVehicleData) (item : Elem) : RawVehicleData :=
  let text := jsToLower item.textContent
  let value := jsTrim item.textContent
  if jsIncludes text "transmission" then
    { vehicle with transmission := some (extractSpecValue value "transmission") }
  else if jsIncludes text "drivetrain" || jsIncludes text "drive type" then
    { vehicle with drivetrain := some (extractSpecValue value "drivetrain") }
  else if jsIncludes text "engine" then
    { vehicle with engine := some (extractSpecValue value "engine") }
  else if jsIncludes text "fuel" then
    { vehicle with fuelType := some (extractSpecValue value "fuel") }
  else if jsIncludes text "exterior" && jsIncludes text "color" then
    { vehicle with exteriorColor := some (extractSpecValue value "exterior color") }
  else if jsIncludes text "interior" && jsIncludes text "color" then
    { vehicle with interiorColor := some (extractSpecValue value "interior color") }
  else if jsIncludes text "body" && (jsIncludes text "style" || jsIncludes text "type") then
    { vehicle with bodyStyle := some (extractSpecValue value "body style") }
  else vehicle

def cgExtractSpecs (doc : CgDoc) (vehicle : RawVehicleData) : RawVehicleData :=
  let specsSection := findElement doc [".cg-listingDetail-specs", ".vehicle-specs",
    ".specifications", ".listing-specs"]
  let vehicle :=
    match specsSection with
    | some sec => (sec.queryAll "li, .spec-item, .detail-item").foldl cgSpecAssign vehicle
    | none => vehicle
  let vehicle :=
    if ¬ strTruthy vehicle.transmission then
      match doc.byLabel specsSection ["transmission", "trans"] with
      | some el => { vehicle with transmission := some (jsTrim el.textContent) }
      | none => vehicle
    else vehicle
  if ¬ strTruthy vehicle.exteriorColor then
    match doc.byLabel specsSection ["exterior color", "color"] with
    | some el => { vehicle with exteriorColor := some (jsTrim el.textContent) }
    | none => vehicle
  else vehicle

def cgExtractDealerInfo (doc : CgDoc) (dealer : Dealer) : Dealer :=
  let dealer :=
    match findElement doc [".cg-listingDetail-dealerName", "[data-cg-ft=\"dealer-name\"]",
        ".dealer-name", ".seller-name"] with
    | some el => { dealer with name := some (jsTrim el.textContent) }
    | none => dealer
  match findElement doc [".cg-listingDetail-dealerContact", ".dealer-contact",
      ".contact-info", ".dealer-info"] with
  | some el =>
    let contactText := el.textContent
    let dealer :=
      match phoneSearch contactText.toList with
      | some m => { dealer with phone := some ⟨m⟩ }
      | none => dealer
    (match addressSearch contactText.toList with
     | some g =>
       { dealer with city := some (jsTrim ⟨g.1⟩), state := some ⟨g.2.1⟩, zip := some ⟨g.2.2⟩ }
     | none => dealer)
  | none => dealer

def cgExtractVIN (doc : CgDoc) (vehicle : RawVehicleData) (warnings : List String) :
    RawVehicleData × List String :=
  match findElement doc [".cg-listingDetail-vin", "[data-cg-ft=\"vin\"]"] with
  | some el => ({ vehicle with vin := some (jsTrim el.textContent) }, warnings)
  | none =>
    match doc.byLabel none ["vin", "vehicle identification number"] with
    | some el => ({ vehicle with vin := some (jsTrim el.textContent) }, warnings)
    | none =>
      match vinSearch doc.bodyText.toList with
      | some m => ({ vehicle with vin := some ⟨m⟩ }, warnings)
      | none => (vehicle, warnings ++ ["VIN not found"])

def cgExtractDescription (doc : CgDoc) (vehicle : RawVehicleData) (warnings : List String) :
    RawVehicleData × List String :=
  match findElement doc [".cg-listingDetail-description", ".vehicle-description",
      ".listing-description", ".description-content"] with
  | some el => ({ vehicle with description := some (jsTrim el.textContent) }, warnings)
  | none => (vehicle, warnings ++ ["Description not found"])

/-- `CarGurusAdapter.scrape`: the ordered extraction steps, normalization,
and result assembly (`now` stands for `Date.now()`, `rand` for the random id
suffix). -/
def cargurusScrape (doc : CgDoc) (now : Int) (rand : String) : ScrapeResult :=
  let vehicle : RawVehicleData := {}
  let dealer : Dealer := {}
  let warnings : List String := []
  let s1 := cgExtractTitleInfo doc vehicle warnings
  let s2 := cgExtractPriceAndMileage doc s1.1 s1.2
  let vehicle := cgExtractSpecs doc s2.1
  let dealer := cgExtractDealerInfo doc dealer
  let s3 := cgExtractVIN doc vehicle s2.2
  let s4 := cgExtractDescription doc s3.1 s3.2
  let photos := extractPhotos doc.loc doc.images
  let normalizedVehicle := normalizeVehicleData s4.1
  { vehicle := normalizedVehicle
    dealer := dealer
    photos := photos
    sourceUrl := doc.href
    scrapedAt := now
    warnings := s4.2
    id := "cargurus_" ++ toString now ++ "_" ++ rand }

/-- The empty document: every query finds nothing, the body text is empty,
no image matches any selector. -/
def emptyCgDoc : CgDoc :=
  { query := fun _ => .notFound
    byLabel := fun _ _ => none
    bodyText := ""
    images := []
    href := ""
    loc := { protocol := "", origin := "", pathname := "" } }

/-! ## `adapters/generic.ts` — the structured-data extraction passes -/

/-- The vehicle record as the generic adapter mutates it before
normalization.  A numeric field holds `none` for `undefined` and
`some none` for a stored `NaN` (an unguarded `parseInt`), both falsy. -/
structure GVehicle where
  year : Option (Option Int) := none
  make : Option String := none
  model : Option String := none
  trim : Option String := none
  price : Option (Option Int) := none
  mileage : Option (Option Int) := none
  vin : Option String := none
  exteriorColor : Option String := none
  description : Option String := none
deriving DecidableEq, Repr

/-- Truthiness of a generic-adapter numeric field (`undefined`, `NaN` and
`0` are falsy). -/
def gNumTruthy : Option (Option Int) → Bool
  | some (some n) => n ≠ 0
  | some none => false
  | none => false

/-- `parseVehicleName` from `adapters/generic.ts`: fill year, make, model,
trim from the title regex, each only when currently falsy. -/
def parseVehicleName (text : String) (vehicle : GVehicle) : GVehicle :=
  match titleSearch text.toList with
  | some g =>
    let vehicle :=
      if ¬ gNumTruthy vehicle.year then { vehicle with year := some (jsParseInt ⟨g.g1⟩) }
      else vehicle
    let vehicle :=
      if ¬ strTruthy vehicle.make then { vehicle with make := some ⟨g.g2⟩ } else vehicle
    let vehicle :=
      if ¬ strTruthy vehicle.model then
        let parts := splitWsRuns (jsTrimList g.g3)
        let vehicle := { vehicle with model := some ⟨parts.headD []⟩ }
        if parts.length > 1 ∧ ¬ strTruthy vehicle.trim then
          { vehicle with trim := some (String.intercalate " " ((parts.drop 1).map String.mk)) }
        else vehicle
      else vehicle
    match g.g4 with
    | some g4 =>
      if ¬ strTruthy vehicle.trim then { vehicle with trim := some ⟨g4⟩ } else vehicle
    | none => vehicle
  | none => vehicle

/-- One `[itemprop]` property of `extractFromMicrodata`: property name and
effective content (`getAttribute('content') || textContent.trim()`; a falsy
content, modelled as `""`, is skipped). -/
def applyMicroProp (vehicle : GVehicle) (prop : String × String) : GVehicle :=
  let propName := prop.1
  let content := prop.2
  if content = "" then vehicle
  else if propName = "name" ∨ propName = "model" then parseVehicleName content vehicle
  else if propName = "brand" ∨ propName = "manufacturer" then
    { vehicle with make := some content }
  else if propName = "productionDate" ∨ propName = "modelYear" then
    { vehicle with year := some (jsParseInt content) }
  else if propName = "price" ∨ propName = "offers" then
    match firstDigitRun content.toList with
    | some ds => { vehicle with price := some (jsParseInt ⟨ds⟩) }
    | none => vehicle
  else if propName = "mileageFromOdometer" ∨ propName = "mileage" then
    match firstDigitRun content.toList with
    | some ds => { vehicle with mileage := some (jsParseInt ⟨ds⟩) }
    | none => vehicle
  else if propName = "vehicleIdentificationNumber" ∨ propName = "vin" then
    { vehicle with vin := some content }
  else if propName = "color" then
    if ¬ strTruthy vehicle.exteriorColor then { vehicle with exteriorColor := some content }
    else vehicle
  else if propName = "description" then { vehicle with description := some content }
  else vehicle

/-- `extractFromMicrodata`: the `[itemprop]` properties of each
`Vehicle`/`Car`/`Auto`-typed microdata element, in document order. -/
def extractFromMicrodata (elements : List (List (String × String))) (vehicle : GVehicle) :
    GVehicle :=
  elements.foldl (fun v props => props.foldl applyMicroProp v) vehicle

/-- One `og:*` meta tag of `extractFromOpenGraph`. -/
def applyOgTag (vehicle : GVehicle) (tag : String × String) : GVehicle :=
  let property := tag.1
  let content := tag.2
  if content = "" then vehicle
  else if property = "og:title" then
    if ¬ gNumTruthy vehicle.year ∨ ¬ strTruthy vehicle.make ∨ ¬ strTruthy vehicle.model then
      parseVehicleName content vehicle
    else vehicle
  else if property = "og:description" then
    if ¬ strTruthy vehicle.description then { vehicle with description := some content }
    else vehicle
  else vehicle

/-- One `twitter:*` meta tag of `extractFromOpenGraph`. -/
def applyTwitterTag (vehicle : GVehicle) (tag : String × String) : GVehicle :=
  if tag.2 = "" then vehicle
  else if tag.1 = "twitter:title"
      ∧ (¬ gNumTruthy vehicle.year ∨ ¬ strTruthy vehicle.make ∨ ¬ strTruthy vehicle.model) then
    parseVehicleName tag.2 vehicle
  else vehicle

/-- `extractFromOpenGraph`: the `og:` tags, then the `twitter:` tags. -/
def extractFromOpenGraph (ogTags twitterTags : List (String × String)) (vehicle : GVehicle) :
    GVehicle :=
  twitterTags.foldl applyTwitterTag (ogTags.foldl applyOgTag vehicle)

/-- One parsed JSON-LD block.  Fields are the strings the code reads;
`offersPrice = some p` models `data.offers && data.offers.price` being
truthy with `p` the string form of the price. -/
structure JsonLdRec where
  attype : String := ""
  name : Option String := none
  brand : Option String := none
  model : Option String := none
  productionDate : Option String := none
  offersPrice : Option String := none
  mileageFromOdometer : Option String := none
  vin : Option String := none
  color : Option String := none
  description : Option String := none
deriving DecidableEq, Repr

/-- One `<script type="application/ld+json">` block of
`extractFromStructuredData` (`none` = `JSON.parse` threw, ignored).  Note:
every assignment here is unconditional — no "already populated" guard. -/
def applyJsonLd (vehicle : GVehicle) (script : Option JsonLdRec) : GVehicle :=
  match script with
  | none => vehicle
  | some data =>
    if data.attype = "Vehicle" ∨ data.attype = "Car" then
      let vehicle :=
        if strTruthy data.name then parseVehicleName (data.name.getD "") vehicle else vehicle
      let vehicle :=
        if strTruthy data.brand then { vehicle with make := data.brand } else vehicle
      let vehicle :=
        if strTruthy data.model then { vehicle with model := data.model } else vehicle
      let vehicle :=
        if strTruthy data.productionDate then
          { vehicle with year := some (jsParseInt (data.productionDate.getD "")) }
        else vehicle
      let vehicle :=
        match data.offersPrice with
        | some p =>
          (match firstDigitRun p.toList with
           | some ds => { vehicle with price := some (jsParseInt ⟨ds⟩) }
           | none => vehicle)
        | none => vehicle
      let vehicle :=
        if strTruthy data.mileageFromOdometer then
          { vehicle with mileage := some (jsParseInt (data.mileageFromOdometer.getD "")) }
        else vehicle
      let vehicle :=
        if strTruthy data.vin then { vehicle with vin := data.vin } else vehicle
      let vehicle :=
        if strTruthy data.color then { vehicle with exteriorColor := data.color } else vehicle
      if strTruthy data.description then { vehicle with description := data.description }
      else vehicle
    else vehicle

/-- `extractFromStructuredData`: every JSON-LD block, in document order. -/
def extractFromStructuredData (scripts : List (Option JsonLdRec)) (vehicle : GVehicle) :
    GVehicle :=
  scripts.foldl applyJsonLd vehicle

/-- Lines 377–379 of `GenericAdapter.scrape`: microdata, then Open
Graph/Twitter, then JSON-LD (the heuristics pass follows these). -/
def genericStructuredPasses (micro : List (List (String × String)))
    (og twitter : List (String × String)) (scripts : List (Option JsonLdRec))
    (vehicle : GVehicle) : GVehicle :=
  extractFromStructuredData scripts
    (extractFromOpenGraph og twitter (extractFromMicrodata micro vehicle))

/-- `vinEmbed orig s`: `s` is `orig` (a string over the VIN alphabet) with
letter cases possibly changed and separator characters (characters whose
uppercase form is outside the VIN alphabet) freely inserted.  This formalises
the "in any letter case and with any non-alphabet separator characters
inserted" hypothesis of the VIN round-trip property. -/
def vinEmbed (orig : List Char) : List Char → Bool
  | [] => orig.isEmpty
  | d :: rest =>
    if isVinChar (jsUpperChar d) then
      match orig with
      | [] => false
      | c :: cs => (jsUpperChar d = c) && vinEmbed cs rest
    else vinEmbed orig rest

/-! ## Helper lemmas -/

theorem titleCaseAux_cons (prev : Option Char) (c : Char) (cs : List Char) :
    titleCaseAux prev (c :: cs) =
      (if (match prev with
           | none => true
           | some p => !(isWordChar p)) && isWordChar c then jsUpperChar c else c)
        :: titleCaseAux (some c) cs := rfl

theorem vinEmbed_cons (orig : List Char) (d : Char) (rest : List Char) :
    vinEmbed orig (d :: rest) =
      if isVinChar (jsUpperChar d) then
        match orig with
        | [] => false
        | c :: cs => (jsUpperChar d = c) && vinEmbed cs rest
      else vinEmbed orig rest := rfl

theorem char_toNat_ofNat (n : Nat) (h : n < 55296) : (Char.ofNat n).toNat = n := by
  have hv : Nat.isValidChar n := Or.inl h
  simp only [Char.ofNat, hv, dif_pos, Char.ofNatAux, Char.toNat, UInt32.toNat]
  simp [BitVec.toNat_ofNatLt]

theorem isWordChar_jsUpperChar (c : Char) : isWordChar (jsUpperChar c) = isWordChar c := by
  unfold jsUpperChar
  split
  next h =>
    have h2 : (Char.ofNat (c.toNat - 32)).toNat = c.toNat - 32 :=
      char_toNat_ofNat _ (by omega)
    simp only [isWordChar, h2]
    apply decide_eq_decide.mpr
    omega
  next => rfl

theorem jsUpperChar_ne_i (c : Char) : jsUpperChar c ≠ 'i' := by
  unfold jsUpperChar
  split
  next h =>
    intro heq
    have h2 : (Char.ofNat (c.toNat - 32)).toNat = c.toNat - 32 :=
      char_toNat_ofNat _ (by omega)
    rw [heq] at h2
    have : ('i').toNat = 105 := by decide
    omega
  next h =>
    intro heq
    rw [heq] at h
    exact h (by decide)

/-- In the output of `titleCaseAux`, a character following a non-word
character is either the uppercased form of a word character or itself a
non-word character. -/
theorem titleCaseAux_adj (l : List Char) : ∀ (prev : Option Char) (pre post : List Char)
    (a b : Char), titleCaseAux prev l = pre ++ a :: b :: post → isWordChar a = false →
    (∃ x, b = jsUpperChar x ∧ isWordChar x = true) ∨ isWordChar b = false := by
  induction l with
  | nil =>
    intro prev pre post a b h _
    simp [titleCaseAux] at h
  | cons c cs ih =>
    intro prev pre post a b h ha
    rw [titleCaseAux_cons] at h
    generalize (match prev with
      | none => true
      | some p => !(isWordChar p)) = bnd at h
    cases pre with
    | nil =>
      simp only [List.nil_append, List.cons.injEq] at h
      obtain ⟨hhd, htail⟩ := h
      have hac : isWordChar c = false := by
        rw [← hhd] at ha
        by_cases hcond : ((bnd && isWordChar c) = true)
        · rw [if_pos hcond, isWordChar_jsUpperChar] at ha
          exact ha
        · rw [if_neg hcond] at ha
          exact ha
      cases cs with
      | nil =>
        rw [show titleCaseAux (some c) [] = [] from rfl] at htail
        exact absurd htail (by simp)
      | cons c2 cs2 =>
        rw [titleCaseAux_cons] at htail
        simp only [List.cons.injEq] at htail
        obtain ⟨hb, _⟩ := htail
        by_cases hw2 : isWordChar c2 = true
        · left
          refine ⟨c2, ?_, hw2⟩
          rw [← hb]
          simp [hac, hw2]
        · right
          simp only [Bool.not_eq_true] at hw2
          rw [← hb]
          simp [hw2]
    | cons p pre' =>
      simp only [List.cons_append, List.cons.injEq] at h
      exact ih (some c) pre' post a b h.2 ha

theorem titleCase_ne_plug_in_hybrid (s : String) : titleCase s ≠ "Plug-in Hybrid" := by
  intro h
  unfold titleCase at h
  have h' : titleCaseAux none (s.toList.map jsLowerChar) = "Plug-in Hybrid".toList :=
    congrArg String.toList h
  have hdec : "Plug-in Hybrid".toList =
      ['P', 'l', 'u', 'g'] ++ '-' :: 'i' :: ['n', ' ', 'H', 'y', 'b', 'r', 'i', 'd'] := by decide
  rw [hdec] at h'
  rcases titleCaseAux_adj _ none _ _ '-' 'i' h' (by decide) with ⟨x, hx, _⟩ | hword
  · exact jsUpperChar_ne_i x hx.symm
  · exact absurd hword (by decide)

/-- If `s` embeds `orig` (case changes plus separators), uppercasing `s` and
keeping only VIN-alphabet characters recovers `orig`. -/
theorem vinEmbed_filter (cs : List Char) : ∀ orig : List Char, vinEmbed orig cs = true →
    (cs.map jsUpperChar).filter isVinChar = orig := by
  induction cs with
  | nil =>
    intro orig h
    cases orig with
    | nil => rfl
    | cons c cs' => simp [vinEmbed] at h
  | cons d rest ih =>
    intro orig h
    rw [vinEmbed_cons] at h
    by_cases hd : isVinChar (jsUpperChar d) = true
    · rw [if_pos hd] at h
      cases orig with
      | nil => simp at h
      | cons c cs' =>
        simp only [Bool.and_eq_true, decide_eq_true_eq] at h
        obtain ⟨hdc, hrec⟩ := h
        simp only [List.map_cons, List.filter_cons, hd, if_true]
        rw [ih cs' hrec]
        simp [hdc]
    · simp only [Bool.not_eq_true] at hd
      rw [if_neg (by simp [hd])] at h
      simp only [List.map_cons, List.filter_cons, hd]
      exact ih orig h

theorem photoLe_total (a b : Photo) : photoLe a b ∨ photoLe b a := by
  unfold photoLe photoCmp
  cases ha : a.isMain <;> cases hb : b.isMain <;> simp [ha, hb] <;> omega

theorem photoLe_trans (a b c : Photo) : photoLe a b → photoLe b c → photoLe a c := by
  unfold photoLe photoCmp
  cases ha : a.isMain <;> cases hb : b.isMain <;> cases hc : c.isMain <;>
    simp [ha, hb, hc] <;> omega

instance : IsTotal Photo photoLe := ⟨photoLe_total⟩

instance : IsTrans Photo photoLe := ⟨photoLe_trans⟩

/-- A pair admitted by the comparator satisfies the ordering invariant of
the claim: no non-main before a main, and within equal `isMain` the area is
non-increasing. -/
theorem photoLe_imp (a b : Photo) (hab : photoLe a b) :
    (b.isMain = true → a.isMain = true)
      ∧ (a.isMain = b.isMain → photoArea b ≤ photoArea a) := by
  constructor
  · intro hbm
    by_contra ham
    rw [Bool.not_eq_true] at ham
    unfold photoLe photoCmp at hab
    rw [ham, hbm] at hab
    simp at hab
  · intro heq
    unfold photoLe photoCmp at hab
    rw [heq] at hab
    cases hb : b.isMain <;> rw [hb] at hab <;> simp at hab <;> omega

theorem processCandidates_nil (loc : Location) (img : ImgElement)
    (seen : List String) (acc : List Photo) :
    processCandidates loc img [] (seen, acc) = (seen, acc) := rfl

theorem processCandidates_cons (loc : Location) (img : ImgElement) (u : String)
    (rest : List String) (seen : List String) (acc : List Photo) :
    processCandidates loc img (u :: rest) (seen, acc) =
      (let cleanUrl := cleanImageUrl (makeAbsoluteUrl loc u)
       if (cleanUrl != "") && !(seen.contains cleanUrl) && isValidImageUrl cleanUrl then
         processCandidates loc img rest (cleanUrl :: seen, acc ++ [photoOf img cleanUrl])
       else processCandidates loc img rest (seen, acc)) := rfl

theorem processImages_nil (loc : Location) (st : List String × List Photo) :
    processImages loc [] st = st := rfl

theorem processImages_cons (loc : Location) (img : ImgElement) (rest : List ImgElement)
    (st : List String × List Photo) :
    processImages loc (img :: rest) st =
      processImages loc rest (processCandidates loc img (extractImageUrls img) st) := rfl

/-- Unconditional dedup invariant of the candidate loop: if the accumulated
photo URLs are distinct and all recorded in `seen`, they stay so. -/
theorem processCandidates_nodup (loc : Location) (img : ImgElement) (cands : List String) :
    ∀ (seen : List String) (acc : List Photo),
    ((acc.map Photo.url).Nodup) → (∀ u ∈ acc.map Photo.url, u ∈ seen) →
    (((processCandidates loc img cands (seen, acc)).2.map Photo.url).Nodup
      ∧ ∀ u ∈ (processCandidates loc img cands (seen, acc)).2.map Photo.url,
          u ∈ (processCandidates loc img cands (seen, acc)).1) := by
  induction cands with
  | nil =>
    intro seen acc h1 h2
    rw [processCandidates_nil]
    exact ⟨h1, h2⟩
  | cons u rest ih =>
    intro seen acc h1 h2
    rw [processCandidates_cons]
    simp only []
    split
    next hcond =>
      simp only [Bool.and_eq_true, bne_iff_ne, ne_eq, Bool.not_eq_true'] at hcond
      obtain ⟨⟨-, hnotseen⟩, -⟩ := hcond
      have hnotmem : cleanImageUrl (makeAbsoluteUrl loc u) ∉ seen := by
        intro hmem
        simp at hnotseen
        exact hnotseen hmem
      refine ih _ _ ?_ ?_
      · simp only [List.map_append, List.map_cons, List.map_nil, photoOf]
        rw [List.nodup_append]
        refine ⟨h1, by simp, ?_⟩
        intro x hx
        simp only [List.mem_singleton]
        intro hxe
        subst hxe
        exact hnotmem (h2 _ hx)
      · intro v hv
        simp only [List.map_append, List.map_cons, List.map_nil, List.mem_append,
          List.mem_singleton, photoOf] at hv
        rcases hv with hv | hv
        · exact List.mem_cons_of_mem _ (h2 _ hv)
        · subst hv; exact List.mem_cons_self _ _
    next =>
      exact ih _ _ h1 h2

/-- Unconditional dedup invariant of the image loop. -/
theorem processImages_nodup (loc : Location) (imgs : List ImgElement) :
    ∀ (seen : List String) (acc : List Photo),
    ((acc.map Photo.url).Nodup) → (∀ u ∈ acc.map Photo.url, u ∈ seen) →
    (((processImages loc imgs (seen, acc)).2.map Photo.url).Nodup
      ∧ ∀ u ∈ (processImages loc imgs (seen, acc)).2.map Photo.url,
          u ∈ (processImages loc imgs (seen, acc)).1) := by
  induction imgs with
  | nil =>
    intro seen acc h1 h2
    rw [processImages_nil]
    exact ⟨h1, h2⟩
  | cons img rest ih =>
    intro seen acc h1 h2
    rw [processImages_cons]
    have h := processCandidates_nodup loc img (extractImageUrls img) seen acc h1 h2
    have heta : processCandidates loc img (extractImageUrls img) (seen, acc) =
        ((processCandidates loc img (extractImageUrls img) (seen, acc)).1,
         (processCandidates loc img (extractImageUrls img) (seen, acc)).2) := rfl
    rw [heta]
    exact ih _ _ h.1 h.2

/-- The validity-conditioned invariant: when every cleaned candidate URL
passes the validity heuristic, the URLs accumulated so far and the `seen`
set have the same elements, and after the loop `seen` has gained exactly the
cleaned candidates. -/
theorem processCandidates_invariant (loc : Location) (img : ImgElement) (cands : List String) :
    ∀ (seen : List String) (acc : List Photo),
    (∀ u ∈ cands, isValidImageUrl (cleanImageUrl (makeAbsoluteUrl loc u)) = true) →
    ((acc.map Photo.url).Nodup) →
    ((acc.map Photo.url).toFinset = seen.toFinset) →
    (((processCandidates loc img cands (seen, acc)).2.map Photo.url).Nodup
      ∧ ((processCandidates loc img cands (seen, acc)).2.map Photo.url).toFinset
          = (processCandidates loc img cands (seen, acc)).1.toFinset
      ∧ (processCandidates loc img cands (seen, acc)).1.toFinset
          = seen.toFinset ∪ (cands.map fun u => cleanImageUrl (makeAbsoluteUrl loc u)).toFinset) := by
  induction cands with
  | nil =>
    intro seen acc _ h1 h2
    rw [processCandidates_nil]
    exact ⟨h1, h2, by simp⟩
  | cons u rest ih =>
    intro seen acc hval h1 h2
    have hvu : isValidImageUrl (cleanImageUrl (makeAbsoluteUrl loc u)) = true :=
      hval u (List.mem_cons_self _ _)
    have hvrest : ∀ v ∈ rest, isValidImageUrl (cleanImageUrl (makeAbsoluteUrl loc v)) = true :=
      fun v hv => hval v (List.mem_cons_of_mem _ hv)
    have hne : cleanImageUrl (makeAbsoluteUrl loc u) ≠ "" := by
      intro he
      rw [he] at hvu
      exact absurd hvu (by decide)
    rw [processCandidates_cons]
    simp only []
    by_cases hseen : cleanImageUrl (makeAbsoluteUrl loc u) ∈ seen
    · rw [if_neg (by simp [hne, hvu, hseen])]
      have h := ih seen acc hvrest h1 h2
      refine ⟨h.1, h.2.1, ?_⟩
      rw [h.2.2]
      simp only [List.map_cons, List.toFinset_cons]
      rw [Finset.union_insert]
      rw [Finset.insert_eq_self.mpr]
      exact Finset.mem_union_left _ (List.mem_toFinset.mpr hseen)
    · rw [if_pos (by simp [hne, hvu, hseen])]
      have h1' : (((acc ++ [photoOf img (cleanImageUrl (makeAbsoluteUrl loc u))]).map
          Photo.url).Nodup) := by
        simp only [List.map_append, List.map_cons, List.map_nil, photoOf]
        rw [List.nodup_append]
        refine ⟨h1, by simp, ?_⟩
        intro x hx
        simp only [List.mem_singleton]
        intro hxe
        subst hxe
        exact hseen (List.mem_toFinset.mp (h2 ▸ List.mem_toFinset.mpr hx))
      have h2' : (((acc ++ [photoOf img (cleanImageUrl (makeAbsoluteUrl loc u))]).map
            Photo.url).toFinset)
          = ((cleanImageUrl (makeAbsoluteUrl loc u)) :: seen).toFinset := by
        simp only [List.map_append, List.map_cons, List.map_nil, photoOf,
          List.toFinset_append, List.toFinset_cons, List.toFinset_nil]
        rw [h2]
        rw [Finset.union_comm]
        simp [Finset.insert_eq]
      have h := ih _ _ hvrest h1' h2'
      refine ⟨h.1, h.2.1, ?_⟩
      rw [h.2.2]
      simp only [List.toFinset_cons, List.map_cons]
      rw [Finset.insert_union, Finset.union_insert]

/-- The validity-conditioned invariant, lifted over the image loop. -/
theorem processImages_invariant (loc : Location) (imgs : List ImgElement) :
    ∀ (seen : List String) (acc : List Photo),
    (∀ u ∈ allCleanedUrls loc imgs, isValidImageUrl u = true) →
    ((acc.map Photo.url).Nodup) →
    ((acc.map Photo.url).toFinset = seen.toFinset) →
    (((processImages loc imgs (seen, acc)).2.map Photo.url).Nodup
      ∧ ((processImages loc imgs (seen, acc)).2.map Photo.url).toFinset
          = (processImages loc imgs (seen, acc)).1.toFinset
      ∧ (processImages loc imgs (seen, acc)).1.toFinset
          = seen.toFinset ∪ (allCleanedUrls loc imgs).toFinset) := by
  induction imgs with
  | nil =>
    intro seen acc _ h1 h2
    rw [processImages_nil]
    refine ⟨h1, h2, ?_⟩
    simp [allCleanedUrls]
  | cons img rest ih =>
    intro seen acc hval h1 h2
    have hsplit : allCleanedUrls loc (img :: rest)
        = ((extractImageUrls img).map fun u => cleanImageUrl (makeAbsoluteUrl loc u))
          ++ allCleanedUrls loc rest := by
      simp [allCleanedUrls]
    rw [hsplit] at hval
    have hvimg : ∀ u ∈ extractImageUrls img,
        isValidImageUrl (cleanImageUrl (makeAbsoluteUrl loc u)) = true := by
      intro v hv
      exact hval _ (List.mem_append_left _ (List.mem_map_of_mem _ hv))
    have hvrest : ∀ u ∈ allCleanedUrls loc rest, isValidImageUrl u = true :=
      fun v hv => hval v (List.mem_append_right _ hv)
    rw [processImages_cons]
    have h := processCandidates_invariant loc img (extractImageUrls img) seen acc hvimg h1 h2
    have heta : processCandidates loc img (extractImageUrls img) (seen, acc) =
        ((processCandidates loc img (extractImageUrls img) (seen, acc)).1,
         (processCandidates loc img (extractImageUrls img) (seen, acc)).2) := rfl
    rw [heta]
    have h' := ih _ _ hvrest h.1 h.2.1
    refine ⟨h'.1, h'.2.1, ?_⟩
    rw [h'.2.2, h.2.2, hsplit]
    rw [List.toFinset_append, Finset.union_assoc]

theorem numStrTruthy_eq_false (v : Option NumStr) :
    numStrTruthy v = false ↔ (v = none ∨ v = some (.num 0) ∨ v = some (.str "")) := by
  rcases v with _ | x
  · simp [numStrTruthy]
  · rcases x with n | s <;> simp [numStrTruthy]

theorem strTruthy_eq_false (v : Option String) :
    strTruthy v = false ↔ (v = none ∨ v = some "") := by
  rcases v with _ | s <;> simp [strTruthy]

theorem mem_missingFields_year (v : RawVehicleData) :
    "year" ∈ missingFields v ↔ numStrTruthy v.year = false := by
  unfold missingFields
  by_cases h1 : numStrTruthy v.year <;> by_cases h2 : strTruthy v.make <;>
    by_cases h3 : strTruthy v.model <;> by_cases h4 : numStrTruthy v.price <;>
      simp [h1, h2, h3, h4]

theorem mem_missingFields_make (v : RawVehicleData) :
    "make" ∈ missingFields v ↔ strTruthy v.make = false := by
  unfold missingFields
  by_cases h1 : numStrTruthy v.year <;> by_cases h2 : strTruthy v.make <;>
    by_cases h3 : strTruthy v.model <;> by_cases h4 : numStrTruthy v.price <;>
      simp [h1, h2, h3, h4]

theorem mem_missingFields_model (v : RawVehicleData) :
    "model" ∈ missingFields v ↔ strTruthy v.model = false := by
  unfold missingFields
  by_cases h1 : numStrTruthy v.year <;> by_cases h2 : strTruthy v.make <;>
    by_cases h3 : strTruthy v.model <;> by_cases h4 : numStrTruthy v.price <;>
      simp [h1, h2, h3, h4]

theorem mem_missingFields_price (v : RawVehicleData) :
    "price" ∈ missingFields v ↔ numStrTruthy v.price = false := by
  unfold missingFields
  by_cases h1 : numStrTruthy v.year <;> by_cases h2 : strTruthy v.make <;>
    by_cases h3 : strTruthy v.model <;> by_cases h4 : numStrTruthy v.price <;>
      simp [h1, h2, h3, h4]

theorem mem_ite_singleton {c : Prop} [Decidable c] {x y : String}
    (h : x ∈ (if c then [y] else [])) : x = y := by
  split at h
  · simpa using h
  · simp at h

theorem mem_vinWarning {x : String} {v : Option String} (h : x ∈ vinWarning v) :
    x = "VIN format appears invalid" := by
  rcases v with _ | s
  · simp [vinWarning] at h
  · unfold vinWarning at h
    dsimp only at h
    split at h
    · split at h
      · rw [List.mem_singleton] at h
        exact h
      · simp at h
    · simp at h

theorem mem_rangeWarning {x msg : String} {v : Option NumStr} {lo hi : Int}
    (h : x ∈ rangeWarning v lo hi msg) : x = msg := by
  rcases v with _ | y
  · simp [rangeWarning] at h
  · unfold rangeWarning at h
    dsimp only at h
    split at h
    · split at h
      · rw [List.mem_singleton] at h
        exact h
      · simp at h
    · simp at h

theorem mileage_msg_ne_missing (x : String) :
    "Mileage appears out of normal range" ≠ "Missing required fields: " ++ x := by
  intro h
  have h2 := congrArg (fun s : String => s.toList[2]?) h
  have h3 : ("Missing required fields: " ++ x).toList
      = "Missing required fields: ".toList ++ x.toList := rfl
  simp only [h3] at h2
  rw [List.getElem?_append_left (by decide)] at h2
  exact absurd h2 (by decide)

/-- The `Mileage appears out of normal range` warning comes exactly from the
mileage range check. -/
theorem mileage_mem_addedWarnings (cy : Int) (r : ScrapeResult) :
    ("Mileage appears out of normal range" ∈ addedWarnings cy r
      ↔ "Mileage appears out of normal range"
          ∈ rangeWarning r.vehicle.mileage 0 1000000 "Mileage appears out of normal range") := by
  unfold addedWarnings
  constructor
  · intro h
    rcases List.mem_append.mp h with h | h
    · rcases List.mem_append.mp h with h | h
      · rcases List.mem_append.mp h with h | h
        · rcases List.mem_append.mp h with h | h
          · rcases List.mem_append.mp h with h | h
            · exact absurd (mem_ite_singleton h) (mileage_msg_ne_missing _)
            · exact absurd (mem_vinWarning h) (by decide)
          · exact absurd (mem_rangeWarning h) (by decide)
        · exact absurd (mem_rangeWarning h) (by decide)
      · exact h
    · exact absurd (mem_ite_singleton h) (by decide)
  · intro h
    exact List.mem_append_left _ (List.mem_append_right _ h)

theorem parseVehicleName_description (t : String) (v : GVehicle) :
    (parseVehicleName t v).description = v.description := by
  unfold parseVehicleName
  split
  · dsimp only
    repeat' split
    all_goals rfl
  · rfl

theorem applyOgTag_desc (v : GVehicle) (t : String × String)
    (h : strTruthy v.description = true) :
    (applyOgTag v t).description = v.description := by
  unfold applyOgTag
  dsimp only
  split
  · rfl
  · split
    · split
      · exact parseVehicleName_description _ _
      · rfl
    · split
      · rfl
      · rfl

theorem applyTwitterTag_desc (v : GVehicle) (t : String × String) :
    (applyTwitterTag v t).description = v.description := by
  unfold applyTwitterTag
  split
  · rfl
  · split
    · exact parseVehicleName_description _ _
    · rfl

theorem foldl_ogTags_desc (tags : List (String × String)) :
    ∀ v : GVehicle, strTruthy v.description = true →
    (tags.foldl applyOgTag v).description = v.description := by
  induction tags with
  | nil => intro v _; rfl
  | cons t ts ih =>
    intro v h
    have hd := applyOgTag_desc v t h
    rw [List.foldl_cons, ih _ (by rw [hd]; exact h)]
    exact hd

theorem foldl_twitterTags_desc (tags : List (String × String)) :
    ∀ v : GVehicle, (tags.foldl applyTwitterTag v).description = v.description := by
  induction tags with
  | nil => intro v; rfl
  | cons t ts ih =>
    intro v
    rw [List.foldl_cons, ih _, applyTwitterTag_desc]

theorem applyOgTag_ids (v : GVehicle) (t : String × String)
    (hy : gNumTruthy v.year = true) (hm : strTruthy v.make = true)
    (hmo : strTruthy v.model = true) :
    (applyOgTag v t).year = v.year ∧ (applyOgTag v t).make = v.make
      ∧ (applyOgTag v t).model = v.model := by
  unfold applyOgTag
  dsimp only
  split
  · exact ⟨rfl, rfl, rfl⟩
  · split
    · split
      next hguard =>
        exfalso
        rcases hguard with h | h | h
        · exact h hy
        · exact h hm
        · exact h hmo
      next => exact ⟨rfl, rfl, rfl⟩
    · split
      · split
        · exact ⟨rfl, rfl, rfl⟩
        · exact ⟨rfl, rfl, rfl⟩
      · exact ⟨rfl, rfl, rfl⟩

theorem applyTwitterTag_ids (v : GVehicle) (t : String × String)
    (hy : gNumTruthy v.year = true) (hm : strTruthy v.make = true)
    (hmo : strTruthy v.model = true) :
    (applyTwitterTag v t).year = v.year ∧ (applyTwitterTag v t).make = v.make
      ∧ (applyTwitterTag v t).model = v.model := by
  unfold applyTwitterTag
  split
  · exact ⟨rfl, rfl, rfl⟩
  · split
    next hc =>
      exfalso
      rcases hc.2 with h | h | h
      · exact h hy
      · exact h hm
      · exact h hmo
    next => exact ⟨rfl, rfl, rfl⟩

theorem foldl_ogTags_ids (tags : List (String × String)) :
    ∀ v : GVehicle, gNumTruthy v.year = true → strTruthy v.make = true →
    strTruthy v.model = true →
    (tags.foldl applyOgTag v).year = v.year ∧ (tags.foldl applyOgTag v).make = v.make
      ∧ (tags.foldl applyOgTag v).model = v.model := by
  induction tags with
  | nil => intro v _ _ _; exact ⟨rfl, rfl, rfl⟩
  | cons t ts ih =>
    intro v hy hm hmo
    have hd := applyOgTag_ids v t hy hm hmo
    rw [List.foldl_cons]
    have := ih (applyOgTag v t) (by rw [hd.1]; exact hy) (by rw [hd.2.1]; exact hm)
      (by rw [hd.2.2]; exact hmo)
    exact ⟨by rw [this.1, hd.1], by rw [this.2.1, hd.2.1], by rw [this.2.2, hd.2.2]⟩

theorem foldl_twitterTags_ids (tags : List (String × String)) :
    ∀ v : GVehicle, gNumTruthy v.year = true → strTruthy v.make = true →
    strTruthy v.model = true →
    (tags.foldl applyTwitterTag v).year = v.year
      ∧ (tags.foldl applyTwitterTag v).make = v.make
      ∧ (tags.foldl applyTwitterTag v).model = v.model := by
  induction tags with
  | nil => intro v _ _ _; exact ⟨rfl, rfl, rfl⟩
  | cons t ts ih =>
    intro v hy hm hmo
    have hd := applyTwitterTag_ids v t hy hm hmo
    rw [List.foldl_cons]
    have := ih (applyTwitterTag v t) (by rw [hd.1]; exact hy) (by rw [hd.2.1]; exact hm)
      (by rw [hd.2.2]; exact hmo)
    exact ⟨by rw [this.1, hd.1], by rw [this.2.1, hd.2.1], by rw [this.2.2, hd.2.2]⟩

/-! ## Claims -/

/-- **C1.** `normalizeVehicleData` is claimed (spec §4.4, §8) to be
idempotent, in particular on already-normalized `bodyStyle` values such as
`"SUV"`.  The code violates this: normalizing `bodyStyle = "sport utility"`
yields the canonical `"SUV"`, but a second application title-cases it to
`"Suv"` (no `bodyStyleMap` key is a substring of `"suv"`), so the second
application changes the value. -/
theorem c1_normalize_not_idempotent_on_bodyStyle :
    (normalizeVehicleData { bodyStyle := some "sport utility" }).bodyStyle = some "SUV"
    ∧ (normalizeVehicleData (normalizeVehicleData
        { bodyStyle := some "sport utility" })).bodyStyle = some "Suv"
    ∧ normalizeVehicleData (normalizeVehicleData { bodyStyle := some "sport utility" })
        ≠ normalizeVehicleData { bodyStyle := some "sport utility" } := by
  refine ⟨by decide, by decide, ?_⟩
  intro h
  have := congrArg RawVehicleData.bodyStyle h
  exact absurd this (by decide)

/-- **C2 (counterexample).** The claim says the CVT rule is checked before
the Automatic rule, so `"cvt automatic"` normalizes to `"CVT"`.  In the code
the `automatic`/`auto` test comes first, so the result is `"Automatic"`. -/
theorem c2_cvt_automatic_counterexample :
    (normalizeVehicleData { transmission := some "cvt automatic" }).transmission
        = some "Automatic"
    ∧ (normalizeVehicleData { transmission := some "cvt automatic" }).transmission
        ≠ some "CVT" := by
  constructor
  · decide
  · intro h; exact absurd h (by decide)

/-- **C2 (amended).** In `normalizeTransmission` the Automatic rule is
checked before the CVT rule: every input whose lowercased, trimmed form
contains both `"cvt"` and `"automatic"` normalizes to `"Automatic"`, not
`"CVT"`. -/
theorem c2_automatic_checked_before_cvt (s : String)
    (hcvt : jsIncludes (jsTrim (jsToLower s)) "cvt" = true)
    (hauto : jsIncludes (jsTrim (jsToLower s)) "automatic" = true) :
    (normalizeVehicleData { transmission := some s }).transmission = some "Automatic"
    ∧ (normalizeVehicleData { transmission := some s }).transmission ≠ some "CVT" := by
  have hs : s ≠ "" := by
    intro h
    subst h
    exact absurd hauto (by decide)
  have hval : normalizeTransmission s = "Automatic" := by
    unfold normalizeTransmission
    simp [hauto]
  have hproj : (normalizeVehicleData { transmission := some s }).transmission
      = some (normalizeTransmission s) := by
    simp [normalizeVehicleData, normStrField, hs]
  rw [hproj, hval]
  exact ⟨rfl, by simp⟩

/-- Witness for `c2_automatic_checked_before_cvt` at `"cvt automatic"`. -/
theorem c2_automatic_checked_before_cvt_witness :
    (normalizeVehicleData { transmission := some "cvt automatic" }).transmission
        = some "Automatic"
    ∧ (normalizeVehicleData { transmission := some "cvt automatic" }).transmission
        ≠ some "CVT" :=
  c2_automatic_checked_before_cvt "cvt automatic" (by decide) (by decide)

/-- **C4 (counterexample).** The claim says every input whose stripped form
has length ≠ 17 ends with the `vin` field absent.  The empty string is a
counterexample: it is falsy, so the whole VIN block is skipped and the field
keeps the value `""` instead of becoming absent. -/
theorem c4_empty_vin_counterexample :
    ((jsToUpper "").toList.filter isVinChar).length ≠ 17
    ∧ (normalizeVehicleData { vin := some "" }).vin = some ""
    ∧ (normalizeVehicleData { vin := some "" }).vin ≠ none := by
  refine ⟨by decide, by decide, ?_⟩
  intro h; exact absurd h (by decide)

/-- **C4 (amended).** VIN round-trip: if `s` is a 17-character string over
`[A-HJ-NPR-Z0-9]` with case changes and separator characters inserted
(`vinEmbed`), normalization strips the separators and uppercases, recovering
exactly the original 17 characters; and every *nonempty* input whose stripped
form has length ≠ 17 ends with the field absent (the empty string, being
falsy, is left untouched). -/
theorem c4_vin_roundtrip (orig : List Char) (s t : String)
    (h17 : orig.length = 17)
    (hemb : vinEmbed orig s.toList = true)
    (ht : t ≠ "")
    (htlen : ((jsToUpper t).toList.filter isVinChar).length ≠ 17) :
    (normalizeVehicleData { vin := some s }).vin = some (String.mk orig)
    ∧ (normalizeVehicleData { vin := some t }).vin = none := by
  have hfil : (jsToUpper s).toList.filter isVinChar = orig := by
    have : (jsToUpper s).toList = s.toList.map jsUpperChar := rfl
    rw [this]
    exact vinEmbed_filter s.toList orig hemb
  have hs : s ≠ "" := by
    intro h
    subst h
    cases orig with
    | nil => simp at h17
    | cons c cs => simp [vinEmbed] at hemb
  constructor
  · have hp : (normalizeVehicleData { vin := some s }).vin = normVin s := by
      simp [normalizeVehicleData, hs]
    rw [hp]
    have hfil' : List.filter isVinChar (jsToUpper s).data = orig := hfil
    simp [normVin, String.toList, hfil', h17]
  · have hp : (normalizeVehicleData { vin := some t }).vin = normVin t := by
      simp [normalizeVehicleData, ht]
    rw [hp]
    have htlen' : (List.filter isVinChar (jsToUpper t).data).length ≠ 17 := htlen
    simp [normVin, String.toList, htlen']

/-- Witness for `c4_vin_roundtrip`: `"1hgcm-82633-q-a004352"` recovers
`"1HGCM82633A004352"` (the `q` is outside `[A-HJ-NPR-Z0-9]` and is stripped
like the hyphens), and `"ABC"` (stripped length 3) becomes absent. -/
theorem c4_vin_roundtrip_witness :
    (normalizeVehicleData { vin := some "1hgcm-82633-q-a004352" }).vin
        = some "1HGCM82633A004352"
    ∧ (normalizeVehicleData { vin := some "ABC" }).vin = none :=
  c4_vin_roundtrip "1HGCM82633A004352".toList "1hgcm-82633-q-a004352" "ABC"
    (by decide) (by decide) (by decide) (by decide)

/-- **C10 (counterexample).** The claim says every input containing
`"hybrid"` normalizes to `"Hybrid"`.  `"gas hybrid"` contains `"hybrid"` but
normalizes to `"Gasoline"`, because the gasoline rule is checked first. -/
theorem c10_gas_hybrid_counterexample :
    jsIncludes (jsTrim (jsToLower "gas hybrid")) "hybrid" = true
    ∧ (normalizeVehicleData { fuelType := some "gas hybrid" }).fuelType = some "Gasoline"
    ∧ (normalizeVehicleData { fuelType := some "gas hybrid" }).fuelType ≠ some "Hybrid" := by
  refine ⟨by decide, by decide, ?_⟩
  intro h; exact absurd h (by decide)

/-- **C10 (amended).** `normalizeFuelType` checks `hybrid` before `plug`:
(1) every input containing `"hybrid"` and none of the earlier keywords
(`gasoline`, `gas`, `petrol`, `diesel`, `electric`, `ev`) yields `"Hybrid"`
— including `"plug-in hybrid"`; (2) an input containing `"plug"` and none of
the other keywords yields `"Plug-in Hybrid"`; (3) conversely,
`"Plug-in Hybrid"` is produced only for inputs that contain `"plug"` and
none of `gas`/`gasoline`/`petrol`/`diesel`/`electric`/`ev`/`hybrid`. -/
theorem c10_hybrid_checked_before_plug :
    (∀ s : String,
      (jsIncludes (jsTrim (jsToLower s)) "gasoline" || jsIncludes (jsTrim (jsToLower s)) "gas"
        || jsIncludes (jsTrim (jsToLower s)) "petrol") = false →
      jsIncludes (jsTrim (jsToLower s)) "diesel" = false →
      (jsIncludes (jsTrim (jsToLower s)) "electric"
        || jsIncludes (jsTrim (jsToLower s)) "ev") = false →
      jsIncludes (jsTrim (jsToLower s)) "hybrid" = true →
      (normalizeVehicleData { fuelType := some s }).fuelType = some "Hybrid")
    ∧ (∀ s : String,
      (jsIncludes (jsTrim (jsToLower s)) "gasoline" || jsIncludes (jsTrim (jsToLower s)) "gas"
        || jsIncludes (jsTrim (jsToLower s)) "petrol") = false →
      jsIncludes (jsTrim (jsToLower s)) "diesel" = false →
      (jsIncludes (jsTrim (jsToLower s)) "electric"
        || jsIncludes (jsTrim (jsToLower s)) "ev") = false →
      jsIncludes (jsTrim (jsToLower s)) "hybrid" = false →
      jsIncludes (jsTrim (jsToLower s)) "plug" = true →
      (normalizeVehicleData { fuelType := some s }).fuelType = some "Plug-in Hybrid")
    ∧ (∀ s : String,
      (normalizeVehicleData { fuelType := some s }).fuelType = some "Plug-in Hybrid" →
      jsIncludes (jsTrim (jsToLower s)) "plug" = true
      ∧ jsIncludes (jsTrim (jsToLower s)) "gasoline" = false
      ∧ jsIncludes (jsTrim (jsToLower s)) "gas" = false
      ∧ jsIncludes (jsTrim (jsToLower s)) "petrol" = false
      ∧ jsIncludes (jsTrim (jsToLower s)) "diesel" = false
      ∧ jsIncludes (jsTrim (jsToLower s)) "electric" = false
      ∧ jsIncludes (jsTrim (jsToLower s)) "ev" = false
      ∧ jsIncludes (jsTrim (jsToLower s)) "hybrid" = false) := by
  have hproj : ∀ s : String, s ≠ "" →
      (normalizeVehicleData { fuelType := some s }).fuelType
        = some (normalizeFuelType s) := by
    intro s hs
    simp [normalizeVehicleData, normStrField, hs]
  have hne : ∀ s : String, jsIncludes (jsTrim (jsToLower s)) "hybrid" = true ∨
      jsIncludes (jsTrim (jsToLower s)) "plug" = true → s ≠ "" := by
    intro s h heq
    subst heq
    rcases h with h | h <;> exact absurd h (by decide)
  refine ⟨?_, ?_, ?_⟩
  · intro s h1 h2 h3 h4
    rw [hproj s (hne s (Or.inl h4))]
    unfold normalizeFuelType
    simp [h1, h2, h3, h4]
  · intro s h1 h2 h3 h4 h5
    rw [hproj s (hne s (Or.inr h5))]
    unfold normalizeFuelType
    simp [h1, h2, h3, h4, h5]
  · intro s h
    by_cases hs : s = ""
    · subst hs
      exact absurd h (by decide)
    · rw [hproj s hs] at h
      have h' : normalizeFuelType s = "Plug-in Hybrid" := Option.some.inj h
      simp only [normalizeFuelType] at h'
      split at h'
      next => exact absurd h' (by decide)
      next hgas =>
        split at h'
        next => exact absurd h' (by decide)
        next hdie =>
          split at h'
          next => exact absurd h' (by decide)
          next hele =>
            split at h'
            next => exact absurd h' (by decide)
            next hhyb =>
              split at h'
              next hplug =>
                simp only [Bool.or_eq_true, not_or, Bool.not_eq_true] at hgas hele
                simp only [Bool.not_eq_true] at hdie hhyb
                exact ⟨hplug, hgas.1.1, hgas.1.2, hgas.2, hdie, hele.1, hele.2, hhyb⟩
              next => exact absurd h' (titleCase_ne_plug_in_hybrid s)

/-- Witness for `c10_hybrid_checked_before_plug`: `"plug-in hybrid"` yields
`"Hybrid"`, `"plug"` yields `"Plug-in Hybrid"`. -/
theorem c10_hybrid_checked_before_plug_witness :
    (normalizeVehicleData { fuelType := some "plug-in hybrid" }).fuelType = some "Hybrid"
    ∧ (normalizeVehicleData { fuelType := some "plug" }).fuelType = some "Plug-in Hybrid" :=
  ⟨c10_hybrid_checked_before_plug.1 "plug-in hybrid"
      (by decide) (by decide) (by decide) (by decide),
    c10_hybrid_checked_before_plug.2.1 "plug"
      (by decide) (by decide) (by decide) (by decide) (by decide)⟩

/-- **C5.** Photo ordering: in the list returned by `extractPhotos`, for any
two photos A before B, if B is main-flagged then so is A (main photos
precede non-main ones), and photos with equal `isMain` are in non-increasing
width×height pixel area; a photo with an unknown width or height has area
zero. -/
theorem c5_photo_ordering (loc : Location) (imgs : List ImgElement) :
    ((extractPhotos loc imgs).Pairwise fun a b =>
      (b.isMain = true → a.isMain = true)
        ∧ (a.isMain = b.isMain → photoArea b ≤ photoArea a))
    ∧ (∀ p : Photo, p.width = none ∨ p.height = none → photoArea p = 0) := by
  constructor
  · have hs : List.Sorted photoLe (extractPhotos loc imgs) :=
      List.sorted_insertionSort photoLe _
    exact List.Pairwise.imp (fun h => photoLe_imp _ _ h) hs
  · intro p h
    rcases h with h | h <;> simp [photoArea, h]

/-- **C6 (counterexample).** The claim promises exactly K returned entries
whenever N candidate elements collapse to K < N distinct cleaned URLs.  Two
images with the same URL `https://h.com/page.html` collapse to K = 1
distinct value, yet `extractPhotos` returns 0 entries, because that URL
fails the validity heuristic (no image extension or indicator). -/
theorem c6_invalid_url_counterexample :
    (allCleanedUrls { protocol := "https:", origin := "https://h.com", pathname := "/" }
        [{ src := "https://h.com/page.html" }, { src := "https://h.com/page.html" }]).dedup.length
      = 1
    ∧ (extractPhotos { protocol := "https:", origin := "https://h.com", pathname := "/" }
        [{ src := "https://h.com/page.html" }, { src := "https://h.com/page.html" }]).length
      = 0 := by
  constructor
  · decide
  · decide

/-- **C6 (amended).** The returned list never contains two photos with equal
`url` (unconditionally), and when every cleaned candidate URL passes the
validity heuristic `isValidImageUrl`, `extractPhotos` returns exactly one
entry per distinct cleaned URL — with N candidates collapsing to K distinct
valid values, exactly K entries. -/
theorem c6_photo_dedup (loc : Location) (imgs : List ImgElement) :
    ((extractPhotos loc imgs).map Photo.url).Nodup
    ∧ ((∀ u ∈ allCleanedUrls loc imgs, isValidImageUrl u = true) →
        (extractPhotos loc imgs).length = (allCleanedUrls loc imgs).dedup.length) := by
  have hperm : (extractPhotos loc imgs).Perm (processImages loc imgs ([], [])).2 :=
    List.perm_insertionSort photoLe _
  constructor
  · have h := processImages_nodup loc imgs [] [] (by simp) (by simp)
    exact ((hperm.map Photo.url).nodup_iff).mpr h.1
  · intro hval
    have h := processImages_invariant loc imgs [] [] hval (by simp) (by simp)
    have hlen : (extractPhotos loc imgs).length
        = (processImages loc imgs ([], [])).2.length := hperm.length_eq
    rw [hlen]
    have h2 : (processImages loc imgs ([], [])).2.length
        = ((processImages loc imgs ([], [])).2.map Photo.url).length := by simp
    rw [h2]
    have h3 := List.card_toFinset ((processImages loc imgs ([], [])).2.map Photo.url)
    rw [List.dedup_eq_self.mpr h.1] at h3
    rw [← h3, h.2.1, h.2.2]
    have : ([] : List String).toFinset ∪ (allCleanedUrls loc imgs).toFinset
        = (allCleanedUrls loc imgs).toFinset := by simp
    rw [this]
    exact List.card_toFinset _

/-- Witness for `c6_photo_dedup`: three images with two distinct valid
cleaned URLs give a duplicate-free result of exactly 2 photos. -/
theorem c6_photo_dedup_witness :
    ((extractPhotos { protocol := "https:", origin := "https://h.com", pathname := "/" }
        [{ src := "https://h.com/img/a.jpg" }, { src := "https://h.com/img/a.jpg" },
         { src := "https://h.com/img/b.jpg" }]).map Photo.url).Nodup
    ∧ (extractPhotos { protocol := "https:", origin := "https://h.com", pathname := "/" }
        [{ src := "https://h.com/img/a.jpg" }, { src := "https://h.com/img/a.jpg" },
         { src := "https://h.com/img/b.jpg" }]).length = 2 := by
  have h := c6_photo_dedup { protocol := "https:", origin := "https://h.com", pathname := "/" }
    [{ src := "https://h.com/img/a.jpg" }, { src := "https://h.com/img/a.jpg" },
     { src := "https://h.com/img/b.jpg" }]
  refine ⟨h.1, ?_⟩
  rw [h.2 (by decide)]
  decide

/-- **C7 (counterexample).** The claim says every `utm_*` parameter,
including `utm_term`, is removed.  The code's `trackingParams` table lists
only `utm_source`, `utm_medium`, `utm_campaign`, `utm_content`; `utm_term`
survives cleaning. -/
theorem c7_utm_term_counterexample :
    cleanImageUrl "https://cdn.example.com/image/a.jpg?utm_term=kw&size=2#top"
        = "https://cdn.example.com/image/a.jpg?utm_term=kw&size=2"
    ∧ jsIncludes
        (cleanImageUrl "https://cdn.example.com/image/a.jpg?utm_term=kw&size=2#top")
        "utm_term" = true := by
  constructor
  · decide
  · decide

/-- **C7 (amended).** For every parsable URL, `cleanImageUrl` removes the
fragment and exactly the query parameters named in `trackingParams` —
`utm_source`, `utm_medium`, `utm_campaign`, `utm_content`, `gclid`,
`fbclid`, `_ga`, `ref`, `referrer` (not the whole `utm_*` class: `utm_term`
is not in the table) — leaving every other parameter in place. -/
theorem c7_tracking_params (s : String) (u : UrlObj) (h : urlParse s = some u) :
    cleanImageUrl s = serializeUrl
        { u with
          query := u.query.filter fun p => !(trackingParams.contains p.1)
          fragment := none }
    ∧ (∀ p ∈ u.query,
        (p ∈ u.query.filter (fun q => !(trackingParams.contains q.1))
          ↔ trackingParams.contains p.1 = false))
    ∧ trackingParams = ["utm_source", "utm_medium", "utm_campaign", "utm_content",
        "gclid", "fbclid", "_ga", "ref", "referrer"] := by
  refine ⟨?_, ?_, rfl⟩
  · unfold cleanImageUrl
    rw [h]
  · intro p hp
    simp [List.mem_filter, hp]

/-- Witness for `c7_tracking_params` at a URL with a `utm_term` and a
`gclid` parameter. -/
theorem c7_tracking_params_witness :
    cleanImageUrl "https://h.com/a.jpg?utm_term=x&gclid=1"
      = serializeUrl
          { scheme := "https", host := "h.com", path := "/a.jpg",
            query := [("utm_term", "x"), ("gclid", "1")].filter
              fun p => !(trackingParams.contains p.1)
            fragment := none } :=
  (c7_tracking_params "https://h.com/a.jpg?utm_term=x&gclid=1"
    { scheme := "https", host := "h.com", path := "/a.jpg",
      query := [("utm_term", "x"), ("gclid", "1")], fragment := none } (by decide)).1

/-- **C3 (counterexample).** The claim says each later source only fills
fields left unpopulated by an earlier source.  Here microdata sets
`description` and `make`, Open Graph leaves them, and the JSON-LD pass
overwrites both (its assignments have no "already populated" guard). -/
theorem c3_jsonld_overwrites_counterexample :
    (extractFromOpenGraph [] [] (extractFromMicrodata
        [[("description", "Dealer description A"), ("brand", "Honda")]] {})).description
      = some "Dealer description A"
    ∧ (extractFromOpenGraph [] [] (extractFromMicrodata
        [[("description", "Dealer description A"), ("brand", "Honda")]] {})).make
      = some "Honda"
    ∧ (extractFromStructuredData
        [some { attype := "Vehicle", brand := some "Toyota",
                description := some "JSON description B" }]
        (extractFromOpenGraph [] [] (extractFromMicrodata
          [[("description", "Dealer description A"), ("brand", "Honda")]] {}))).description
      = some "JSON description B"
    ∧ (extractFromStructuredData
        [some { attype := "Vehicle", brand := some "Toyota",
                description := some "JSON description B" }]
        (extractFromOpenGraph [] [] (extractFromMicrodata
          [[("description", "Dealer description A"), ("brand", "Honda")]] {}))).make
      = some "Toyota"
    ∧ (extractFromStructuredData
        [some { attype := "Vehicle", brand := some "Toyota",
                description := some "JSON description B" }]
        (extractFromOpenGraph [] [] (extractFromMicrodata
          [[("description", "Dealer description A"), ("brand", "Honda")]] {}))).description
      ≠ (extractFromOpenGraph [] [] (extractFromMicrodata
          [[("description", "Dealer description A"), ("brand", "Honda")]] {})).description := by
  refine ⟨by decide, by decide, by decide, by decide, ?_⟩
  intro h
  exact absurd h (by decide)

/-- **C3 (amended).** The generic adapter runs microdata, then Open
Graph/Twitter, then JSON-LD, then heuristics; the Open Graph/Twitter pass
only fills unpopulated fields (a populated description is preserved, and a
fully populated year/make/model triple is preserved), but the JSON-LD pass
is last-found-wins: it overwrites fields already populated by an earlier
source — a `Vehicle`/`Car` block with a truthy description replaces any
existing description. -/
theorem c3_og_fills_jsonld_overwrites :
    (∀ (og twitter : List (String × String)) (v : GVehicle),
      strTruthy v.description = true →
      (extractFromOpenGraph og twitter v).description = v.description)
    ∧ (∀ (og twitter : List (String × String)) (v : GVehicle),
      gNumTruthy v.year = true → strTruthy v.make = true → strTruthy v.model = true →
      (extractFromOpenGraph og twitter v).year = v.year
      ∧ (extractFromOpenGraph og twitter v).make = v.make
      ∧ (extractFromOpenGraph og twitter v).model = v.model)
    ∧ (∀ (v : GVehicle) (d : JsonLdRec),
      (d.attype = "Vehicle" ∨ d.attype = "Car") →
      strTruthy d.description = true →
      (extractFromStructuredData [some d] v).description = d.description) := by
  refine ⟨?_, ?_, ?_⟩
  · intro og twitter v h
    unfold extractFromOpenGraph
    rw [foldl_twitterTags_desc, foldl_ogTags_desc _ _ h]
  · intro og twitter v hy hm hmo
    unfold extractFromOpenGraph
    have hog := foldl_ogTags_ids og v hy hm hmo
    have htw := foldl_twitterTags_ids twitter (og.foldl applyOgTag v)
      (by rw [hog.1]; exact hy) (by rw [hog.2.1]; exact hm) (by rw [hog.2.2]; exact hmo)
    exact ⟨by rw [htw.1, hog.1], by rw [htw.2.1, hog.2.1], by rw [htw.2.2, hog.2.2]⟩
  · intro v d hty hdesc
    show (applyJsonLd v (some d)).description = d.description
    unfold applyJsonLd
    dsimp only
    rw [if_pos hty, if_pos hdesc]

/-- Witness for `c3_og_fills_jsonld_overwrites`: an `og:description` tag
does not replace an existing description, a JSON-LD description does. -/
theorem c3_og_fills_jsonld_overwrites_witness :
    (extractFromOpenGraph [("og:description", "X")] []
        ({ description := some "A" } : GVehicle)).description = some "A"
    ∧ (extractFromStructuredData [some { attype := "Vehicle", description := some "B" }]
        ({ description := some "A" } : GVehicle)).description = some "B" :=
  ⟨c3_og_fills_jsonld_overwrites.1 [("og:description", "X")] [] _ (by decide),
    c3_og_fills_jsonld_overwrites.2.2 _ { attype := "Vehicle", description := some "B" }
      (Or.inl rfl) (by decide)⟩

/-- **C8.** Missing data never throws: the engine's post-hoc validation only
appends warning strings (vehicle, dealer and photos are untouched and the
original warnings stay as a prefix), and the CarGurus adapter applied to the
empty document returns a fully-formed `ScrapeResult` — every vehicle field
undefined except the defaulted `condition`, an empty photo list, and one
warning per extraction step that found nothing. -/
theorem c8_missing_data_never_throws :
    (∀ (cy : Int) (r : ScrapeResult),
      (validateScrapeResult cy r).vehicle = r.vehicle
      ∧ (validateScrapeResult cy r).dealer = r.dealer
      ∧ (validateScrapeResult cy r).photos = r.photos
      ∧ ∃ extra, (validateScrapeResult cy r).warnings = r.warnings ++ extra)
    ∧ cargurusScrape emptyCgDoc 0 "r0" =
        { vehicle := { condition := some "Used" }
          dealer := {}
          photos := []
          sourceUrl := ""
          scrapedAt := 0
          warnings := ["Vehicle title not found", "Price not found", "Mileage not found",
            "VIN not found", "Description not found"]
          id := "cargurus_0_r0" } := by
  constructor
  · intro cy r
    exact ⟨rfl, rfl, rfl, ⟨addedWarnings cy r, rfl⟩⟩
  · decide

/-- **C9 (counterexample).** The claim says the lower bound of the
0..1,000,000 mileage check can never produce a warning.  A negative mileage
(reachable e.g. from a JSON-LD `mileageFromOdometer` of `"-1"`) is truthy,
fails the `< 0` bound (while the upper bound holds), and produces the
warning. -/
theorem c9_negative_mileage_counterexample :
    numStrGt (.num (-1)) 1000000 = false
    ∧ numStrLt (.num (-1)) 0 = true
    ∧ "Mileage appears out of normal range" ∈
        (validateScrapeResult 2026
          { vehicle := { mileage := some (.num (-1)) }, dealer := {}, photos := [],
            sourceUrl := "", scrapedAt := 0, warnings := [], id := "" }).warnings := by
  exact ⟨by decide, by decide, by decide⟩

/-- **C9 (amended).** Engine validation treats falsy values as missing: a
required field among year, make, model, price is listed in the single
`Missing required fields:` warning exactly when its value is `0`, the empty
string, or `undefined` (so a price of 0 is reported missing); the mileage
range check is skipped when mileage is 0, and more generally the range
warning is never produced for a mileage in 0..1,000,000 — but the lower
bound does fire, exactly for negative mileage values. -/
theorem c9_falsy_fields_and_mileage_bounds :
    (∀ v : RawVehicleData,
      ("year" ∈ missingFields v
        ↔ (v.year = none ∨ v.year = some (.num 0) ∨ v.year = some (.str "")))
      ∧ ("make" ∈ missingFields v ↔ (v.make = none ∨ v.make = some ""))
      ∧ ("model" ∈ missingFields v ↔ (v.model = none ∨ v.model = some ""))
      ∧ ("price" ∈ missingFields v
        ↔ (v.price = none ∨ v.price = some (.num 0) ∨ v.price = some (.str ""))))
    ∧ (∀ (cy : Int) (r : ScrapeResult), missingFields r.vehicle ≠ [] →
        ("Missing required fields: " ++ String.intercalate ", " (missingFields r.vehicle))
          ∈ (validateScrapeResult cy r).warnings)
    ∧ (∀ (cy : Int) (r : ScrapeResult) (m : Int), r.vehicle.mileage = some (.num m) →
        0 ≤ m → m ≤ 1000000 →
        "Mileage appears out of normal range" ∉ addedWarnings cy r)
    ∧ (∀ (cy : Int) (r : ScrapeResult) (m : Int), r.vehicle.mileage = some (.num m) →
        m < 0 →
        "Mileage appears out of normal range" ∈ addedWarnings cy r) := by
  refine ⟨?_, ?_, ?_, ?_⟩
  · intro v
    refine ⟨?_, ?_, ?_, ?_⟩
    · rw [mem_missingFields_year, numStrTruthy_eq_false]
    · rw [mem_missingFields_make, strTruthy_eq_false]
    · rw [mem_missingFields_model, strTruthy_eq_false]
    · rw [mem_missingFields_price, numStrTruthy_eq_false]
  · intro cy r h
    have hmem : ("Missing required fields: "
        ++ String.intercalate ", " (missingFields r.vehicle))
        ∈ (if (missingFields r.vehicle).length > 0 then
            ["Missing required fields: "
              ++ String.intercalate ", " (missingFields r.vehicle)]
          else []) := by
      rw [if_pos (List.length_pos.mpr h)]
      exact List.mem_singleton_self _
    unfold validateScrapeResult addedWarnings
    exact List.mem_append_right _ (List.mem_append_left _ (List.mem_append_left _
      (List.mem_append_left _ (List.mem_append_left _ (List.mem_append_left _ hmem)))))
  · intro cy r m hm h0 hle
    rw [mileage_mem_addedWarnings]
    unfold rangeWarning
    rw [hm]
    dsimp only
    by_cases hz : m = 0
    · subst hz
      simp [numStrTruthy]
    · have ht : numStrTruthy (some (.num m)) = true := by
        simp [numStrTruthy]
        omega
      rw [if_pos ht]
      have hlt : numStrLt (.num m) 0 = false := by
        simp [numStrLt]
        omega
      have hgt : numStrGt (.num m) 1000000 = false := by
        simp [numStrGt]
        omega
      simp [hlt, hgt]
  · intro cy r m hm hneg
    rw [mileage_mem_addedWarnings]
    unfold rangeWarning
    rw [hm]
    dsimp only
    have ht : numStrTruthy (some (.num m)) = true := by
      simp [numStrTruthy]
      omega
    rw [if_pos ht]
    have hlt : numStrLt (.num m) 0 = true := by
      simp [numStrLt]
      omega
    simp [hlt]

/-- Witness for `c9_falsy_fields_and_mileage_bounds`: a result with price 0
gets the missing-fields warning listing `price`; mileage 0 produces no range
warning; mileage −1 produces it. -/
theorem c9_falsy_fields_and_mileage_bounds_witness :
    ("price" ∈ missingFields
        ({ year := some (.num 2023), make := some "Honda", model := some "Civic",
           price := some (.num 0) } : RawVehicleData))
    ∧ ("Missing required fields: price" ∈
        (validateScrapeResult 2026
          { vehicle :=
              { year := some (.num 2023), make := some "Honda",
                model := some "Civic", price := some (.num 0), mileage := some (.num 0) },
            dealer := {}, photos := [], sourceUrl := "", scrapedAt := 0,
            warnings := [], id := "" }).warnings)
    ∧ ("Mileage appears out of normal range" ∉ addedWarnings 2026
        { vehicle :=
            { year := some (.num 2023), make := some "Honda",
              model := some "Civic", price := some (.num 0), mileage := some (.num 0) },
          dealer := {}, photos := [], sourceUrl := "", scrapedAt := 0,
          warnings := [], id := "" })
    ∧ ("Mileage appears out of normal range" ∈ addedWarnings 2026
        { vehicle := { mileage := some (.num (-1)) },
          dealer := {}, photos := [], sourceUrl := "", scrapedAt := 0,
          warnings := [], id := "" }) := by
  refine ⟨?_, ?_, ?_, ?_⟩
  · exact ((c9_falsy_fields_and_mileage_bounds.1 _).2.2.2).mpr (Or.inr (Or.inl rfl))
  · have h := c9_falsy_fields_and_mileage_bounds.2.1 2026
      { vehicle :=
          { year := some (.num 2023), make := some "Honda",
            model := some "Civic", price := some (.num 0), mileage := some (.num 0) },
        dealer := {}, photos := [], sourceUrl := "", scrapedAt := 0,
        warnings := [], id := "" } (by decide)
    simpa using h
  · exact c9_falsy_fields_and_mileage_bounds.2.2.1 2026 _ 0 rfl (by decide) (by decide)
  · exact c9_falsy_fields_and_mileage_bounds.2.2.2 2026 _ (-1) rfl (by decide)

end ClipNote
